import Mathlib

/-!
Shallow embedding of the streaming/process-orchestration core of the Mystlin
(Mysti) VS Code extension, together with proofs checking the natural-language
specification against it.

Embedded source files:
* `src/providers/base/BaseCliProvider.ts` (second, authoritative revision):
  `sendMessage`, `processStream`, `waitForProcess`, `buildPromptAsync`,
  `buildPrompt`, `cancelCurrentRequest`, `clearSession`, `handleError`,
  `formatContext`, `formatConversationHistory`.
* `src/managers/ProviderManager.ts`: `_parseStreamLine` (tool-call
  accumulation, session-id extraction), the stderr tail of
  `_sendClaudeCodeMessage`.
* `src/managers/PermissionManager.ts`: `requestPermission`, `handleResponse`,
  `_handleTimeout`, `cancelRequest`, `cancelAllRequests`,
  `resetSessionAccessLevel`.

JavaScript strings are modelled as Lean `String` where only whole-string
operations occur, and as `List Char` where the code slices and splits them
(the newline re-assembly loop).  `JSON.parse` is abstracted as a parameter
`jparse : String → Option J` over an arbitrary type `J` of JSON values,
with `JSON.parse` failure represented by `none`.
-/

set_option autoImplicit false

namespace Mystlin

/-! ## Canonical stream-chunk protocol (`StreamChunk` in `types`) -/

/-- Token-usage counters attached to a `done` chunk. -/
structure Usage where
  input_tokens : Nat
  output_tokens : Nat
  cache_creation_input_tokens : Option Nat := none
  cache_read_input_tokens : Option Nat := none
  deriving DecidableEq, Repr

/-- Status field of a tool call (`'running' | 'completed' | 'failed'`). -/
inductive ToolStatus where
  | running
  | completed
  | failed
  deriving DecidableEq, Repr

/-- A tool call record carried by `tool_use` / `tool_result` chunks.
`J` is the type of JSON values used for the `input` field. -/
structure ToolCall (J : Type) where
  id : String
  name : String
  input : J
  output : Option String := none
  status : ToolStatus
  deriving DecidableEq, Repr

/-- The canonical `StreamChunk` tagged union, parameterised by the JSON value
type `J` used in tool-call inputs. -/
inductive StreamChunk (J : Type) where
  | text (content : String)
  | thinking (content : String)
  | toolUse (toolCall : ToolCall J)
  | toolResult (toolCall : ToolCall J)
  | sessionActive (sessionId : String)
  | error (content : String)
  | done (usage : Option Usage)
  deriving DecidableEq, Repr

/-! ## BaseCliProvider per-instance state: session id and in-flight process

`BaseCliProvider` owns `_currentProcess : ChildProcess | null` and
`_currentSessionId : string | null`.  A process handle is modelled by a
numeric id; the signals `cancelCurrentRequest` sends are recorded
explicitly. -/

/-- A POSIX-style signal sent to a child process, tagged with the process
handle it is sent to. -/
inductive KillSignal where
  | sigterm (proc : Nat)
  | sigkill (proc : Nat)
  deriving DecidableEq, Repr

/-- The mutable per-provider fields of `BaseCliProvider` relevant to session
and cancellation management. -/
structure ProviderState where
  currentProcess : Option Nat
  currentSessionId : Option String
  deriving DecidableEq, Repr

/-- `BaseCliProvider.cancelCurrentRequest`: if a process is in flight, send it
`SIGTERM` and null the reference; otherwise do nothing.  Returns the updated
state and the list of signals sent. -/
def cancelCurrentRequest (st : ProviderState) : ProviderState × List KillSignal :=
  match st.currentProcess with
  | some p => ({ st with currentProcess := none }, [KillSignal.sigterm p])
  | none => (st, [])

/-- `BaseCliProvider.clearSession`: null the stored session id (the in-flight
process is untouched and no signal is sent). -/
def clearSession (st : ProviderState) : ProviderState × List KillSignal :=
  ({ st with currentSessionId := none }, [])

/-! ## Prompt building (`BaseCliProvider.buildPromptAsync` / `buildPrompt`)

`formatContext` and `formatConversationHistory` are embedded in full;
persona-prompt lookup (`getPersonaPrompt`, a table lookup in `IProvider.ts`)
and the awaited result of `buildAgentInstructionsAsync` (which consults the
out-of-scope `AgentContextManager`, falling back to the static tables) enter
as the strings they produce, since `buildPromptAsync` only concatenates
them. -/

/-- JS `String.prototype.trim()`: strip leading and trailing whitespace.
(Defined over the character list so that it evaluates by kernel
reduction.) -/
def jsTrim (s : String) : String :=
  String.mk (((s.data.dropWhile Char.isWhitespace).reverse.dropWhile Char.isWhitespace).reverse)

/-- JS `s.startsWith(pre)`. -/
def jsStartsWith (s pre : String) : Bool :=
  pre.data.isPrefixOf s.data

/-- `ContextItem`: a file or selection attached to the prompt. -/
structure ContextItem where
  isSelection : Bool
  path : String
  content : String
  language : String
  startLine : Nat
  endLine : Nat
  deriving DecidableEq, Repr

/-- One message of a conversation (`role` is `'user'` or anything else,
which formats as `Assistant`). -/
structure Message where
  role : String
  content : String
  deriving DecidableEq, Repr

/-- `BaseCliProvider.formatContext`. -/
def formatContext (context : List ContextItem) : String :=
  context.foldl (fun acc item =>
    if item.isSelection then
      acc ++ s!"## Selection from {item.path} (lines {item.startLine}-{item.endLine})\n"
        ++ "```" ++ s!"{item.language}\n{item.content}\n" ++ "```\n\n"
    else
      acc ++ s!"## {item.path}\n"
        ++ "```" ++ s!"{item.language}\n{item.content}\n" ++ "```\n\n")
    "# Context Files\n\n"

/-- `BaseCliProvider.formatConversationHistory`: the last 10 messages,
most-recent-last. -/
def formatConversationHistory (messages : List Message) : String :=
  (messages.drop (messages.length - 10)).foldl (fun acc m =>
    let role := if m.role = "user" then "User" else "Assistant"
    acc ++ s!"**{role}:** {m.content}\n\n")
    "# Previous Conversation\n\n"

/-- `BaseCliProvider.buildPromptAsync`.  `agentInstructions` is the string
returned by `buildAgentInstructionsAsync` for the given agent configuration
(empty when none is configured), `personaPrompt` the string returned by
`getPersonaPrompt` for the legacy persona (`none` when no persona was
passed); `conversationMessages` is `conversation.messages` (`none` for a
null conversation).  Mirrors the source statement-for-statement. -/
def buildPromptAsync (content : String) (context : List ContextItem)
    (conversationMessages : Option (List Message)) (mode : String)
    (personaPrompt : Option String) (agentInstructions : String) : String :=
  -- Slash commands are sent raw to the CLI without any modifications
  if jsStartsWith (jsTrim content) "/" then
    jsTrim content
  else
    let fullPrompt := ""
    -- PRIORITY 1: agent configuration; PRIORITY 2: legacy persona
    let fullPrompt :=
      if agentInstructions ≠ "" then
        fullPrompt ++ agentInstructions ++ "\n\n"
      else
        match personaPrompt with
        | some pp => if pp ≠ "" then fullPrompt ++ pp ++ "\n\n" else fullPrompt
        | none => fullPrompt
    let fullPrompt :=
      if context.length > 0 then fullPrompt ++ formatContext context ++ "\n\n"
      else fullPrompt
    let fullPrompt :=
      match conversationMessages with
      | some msgs =>
        if msgs.length > 0 then fullPrompt ++ formatConversationHistory msgs ++ "\n\n"
        else fullPrompt
      | none => fullPrompt
    let fullPrompt := fullPrompt ++ content
    if mode = "quick-plan" then
      fullPrompt ++ "\n\n[Planning Mode] Create ONE concise implementation plan. Focus on the most practical approach without exploring multiple alternatives. Be brief and actionable."
    else
      fullPrompt

/-- `BaseCliProvider.buildPrompt` (deprecated synchronous variant): same
shape, with `agentInstructions` the result of `buildAgentInstructionsSync`.
The body is identical to `buildPromptAsync` up to where the agent
instructions come from, which is outside this embedding's boundary, so it is
defined as the same string function. -/
def buildPrompt (content : String) (context : List ContextItem)
    (conversationMessages : Option (List Message)) (mode : String)
    (personaPrompt : Option String) (agentInstructions : String) : String :=
  buildPromptAsync content context conversationMessages mode personaPrompt agentInstructions

/-! ## The shared newline re-assembly discipline (`processStream` core loop)

The loop in `BaseCliProvider.processStream` (and its inlined copy in
`ProviderManager._sendClaudeCodeMessage`) is, per stdout chunk:

```
buffer += chunk.toString();
const lines = buffer.split('\n');
buffer = lines.pop() || '';
for (const line of lines)
  if (line.trim()) { const parsed = this.parseStreamLine(line); if (parsed) yield parsed; }
```

and after the stream ends:

```
if (buffer.trim()) { const parsed = this.parseStreamLine(buffer); if (parsed) yield parsed; }
```

JS strings are modelled as `List Char` here because the code slices them.
`parseStreamLine` is an abstract subclass method and may be stateful (the
Claude parser mutates its accumulator maps), so it is a parameter
`parse : σ → List Char → σ × Option (StreamChunk J)`.

The functions `splitLines`/`emitLines`/`feedChunk`/`feedChunks`/
`processStreamChunks` model the loop from `buffer += ...` onwards: their
chunks are the JS strings produced by `chunk.toString()`.  The stdout
chunks themselves are `Buffer`s of bytes, and `chunk.toString()` decodes
each `Buffer` independently as UTF-8 with U+FFFD replacement — a chunk
boundary inside a multi-byte character therefore corrupts the text.  The
byte level is modelled below (`utf8DecodeBytes`, `byteProcessStreamChunks`)
on top of this string-level loop. -/

/-- JS `s.trim()` is truthy iff `s` contains a non-whitespace character;
`isBlank l` is the negation: every character of `l` is whitespace. -/
def isBlank (l : List Char) : Bool :=
  l.all Char.isWhitespace

/-- `buffer.split('\n')` followed by `buffer = lines.pop() || ''`: returns
the complete lines (the split segments except the last) and the new buffer
(the last segment). -/
def splitLines : List Char → List (List Char) × List Char
  | [] => ([], [])
  | c :: rest =>
    let p := splitLines rest
    if c = '\n' then
      ([] :: p.1, p.2)
    else
      match p.1 with
      | [] => ([], c :: p.2)
      | l :: ls' => ((c :: l) :: ls', p.2)

/-- The `for (const line of lines)` body: skip blank lines, otherwise run the
(stateful) line parser and emit its chunk if non-null. -/
def emitLines {σ J : Type} (parse : σ → List Char → σ × Option (StreamChunk J)) :
    σ → List (List Char) → σ × List (StreamChunk J)
  | st, [] => (st, [])
  | st, l :: ls =>
    if isBlank l then
      emitLines parse st ls
    else
      let r := parse st l
      let r' := emitLines parse r.1 ls
      (r'.1, r.2.toList ++ r'.2)

/-- One iteration of the stdout loop: append the chunk to the buffer, split
into lines, keep the trailing segment as the new buffer, parse the complete
lines.  The state is (parser state, buffer). -/
def feedChunk {σ J : Type} (parse : σ → List Char → σ × Option (StreamChunk J))
    (s : σ × List Char) (chunkStr : List Char) : (σ × List Char) × List (StreamChunk J) :=
  let sp := splitLines (s.2 ++ chunkStr)
  let r := emitLines parse s.1 sp.1
  ((r.1, sp.2), r.2)

/-- The whole stdout loop over a list of chunks. -/
def feedChunks {σ J : Type} (parse : σ → List Char → σ × Option (StreamChunk J)) :
    (σ × List Char) → List (List Char) → (σ × List Char) × List (StreamChunk J)
  | s, [] => (s, [])
  | s, c :: cs =>
    let r := feedChunk parse s c
    let r' := feedChunks parse r.1 cs
    (r'.1, r.2 ++ r'.2)

/-- `processStream`'s chunk production: run the stdout loop from an empty
buffer over the given chunk sequence, then process the non-blank remainder.
(The exit-code / stderr tail is modelled separately as `processStreamTail`.) -/
def processStreamChunks {σ J : Type} (parse : σ → List Char → σ × Option (StreamChunk J))
    (st : σ) (chunks : List (List Char)) : List (StreamChunk J) :=
  let r := feedChunks parse (st, []) chunks
  if isBlank r.1.2 then r.2
  else r.2 ++ (parse r.1.1 r.1.2).2.toList

/-! ### The byte level: `chunk.toString()`

A stdout chunk is a Node `Buffer`; `chunk.toString()` decodes it as UTF-8
in isolation, substituting U+FFFD for each maximal ill-formed subpart
(WHATWG UTF-8 decode, which V8 implements) — in particular an incomplete
multi-byte sequence at the end of a `Buffer`, or a stray continuation byte
at its start, becomes U+FFFD.  Bytes are `Nat`s (0–255). -/

/-- The Unicode replacement character U+FFFD emitted for ill-formed
input. -/
def replChar : Char := Char.ofNat 0xFFFD

/-- The state of the WHATWG streaming UTF-8 decoder: the partially
accumulated code point, the number of continuation bytes still needed, and
the admissible range for the next byte. -/
structure Utf8DecState where
  acc : Nat
  needed : Nat
  lowerB : Nat
  upperB : Nat
  deriving DecidableEq, Repr

/-- The decoder's ground state (no sequence in progress). -/
def initUtf8 : Utf8DecState :=
  { acc := 0, needed := 0, lowerB := 0x80, upperB := 0xBF }

/-- Handle one byte from the ground state (WHATWG "UTF-8 decoder" with
`bytes needed = 0`): ASCII is emitted, a valid lead opens a sequence and
sets the admissible range of the next byte (`0xE0`/`0xED`/`0xF0`/`0xF4`
restrictions exclude overlongs, surrogates and values above U+10FFFF), and
anything else is one ill-formed byte → U+FFFD. -/
def utf8Ground (b : Nat) : Utf8DecState × List Char :=
  if b < 0x80 then
    (initUtf8, [Char.ofNat b])
  else if 0xC2 ≤ b ∧ b ≤ 0xDF then
    ({ acc := b - 0xC0, needed := 1, lowerB := 0x80, upperB := 0xBF }, [])
  else if 0xE0 ≤ b ∧ b ≤ 0xEF then
    ({ acc := b - 0xE0, needed := 2,
       lowerB := if b = 0xE0 then 0xA0 else 0x80,
       upperB := if b = 0xED then 0x9F else 0xBF }, [])
  else if 0xF0 ≤ b ∧ b ≤ 0xF4 then
    ({ acc := b - 0xF0, needed := 3,
       lowerB := if b = 0xF0 then 0x90 else 0x80,
       upperB := if b = 0xF4 then 0x8F else 0xBF }, [])
  else
    (initUtf8, [replChar])

/-- One byte of WHATWG UTF-8 decoding: in the middle of a sequence an
admissible byte extends the accumulator (emitting the code point when the
sequence completes), and an inadmissible byte ends the maximal ill-formed
subpart with one U+FFFD and is reprocessed from the ground state. -/
def utf8Step (s : Utf8DecState) (b : Nat) : Utf8DecState × List Char :=
  if s.needed = 0 then
    utf8Ground b
  else if s.lowerB ≤ b ∧ b ≤ s.upperB then
    if s.needed = 1 then
      (initUtf8, [Char.ofNat (s.acc * 0x40 + (b - 0x80))])
    else
      ({ acc := s.acc * 0x40 + (b - 0x80), needed := s.needed - 1,
         lowerB := 0x80, upperB := 0xBF }, [])
  else
    ((utf8Ground b).1, replChar :: (utf8Ground b).2)

/-- Run the decoder over a byte list; at end of input a sequence still in
progress is one ill-formed subpart → U+FFFD. -/
def utf8DecodeLoop : Utf8DecState → List Nat → List Char
  | s, [] => if s.needed = 0 then [] else [replChar]
  | s, b :: rest =>
    let r := utf8Step s b
    r.2 ++ utf8DecodeLoop r.1 rest

/-- `chunk.toString()`: WHATWG UTF-8 decode of one `Buffer` in isolation
(each maximal ill-formed subpart, including a sequence truncated by the end
of the buffer or a stray continuation byte at its start, becomes
U+FFFD). -/
def utf8DecodeBytes (bs : List Nat) : List Char :=
  utf8DecodeLoop initUtf8 bs

/-- Standard UTF-8 encoding of one character. -/
def utf8EncodeChar (c : Char) : List Nat :=
  let n := c.toNat
  if n < 0x80 then [n]
  else if n < 0x800 then [0xC0 + n / 0x40, 0x80 + n % 0x40]
  else if n < 0x10000 then
    [0xE0 + n / 0x1000, 0x80 + n / 0x40 % 0x40, 0x80 + n % 0x40]
  else
    [0xF0 + n / 0x40000, 0x80 + n / 0x1000 % 0x40, 0x80 + n / 0x40 % 0x40, 0x80 + n % 0x40]

/-- UTF-8 encoding of a character sequence. -/
def utf8Encode (s : List Char) : List Nat :=
  (s.map utf8EncodeChar).flatten

/-- The stdout loop at the byte level: each `Buffer` chunk is decoded
independently by `chunk.toString()` and appended to the line buffer, then
the string-level loop runs. -/
def byteProcessStreamChunks {σ J : Type} (parse : σ → List Char → σ × Option (StreamChunk J))
    (st : σ) (byteChunks : List (List Nat)) : List (StreamChunk J) :=
  processStreamChunks parse st (byteChunks.map utf8DecodeBytes)

/-- Glue a newline-free residual buffer onto the front of the split of a
following string: the buffer extends the first complete line if one exists,
else the residual. -/
def mergeSplit (buf : List Char) : List (List Char) × List Char → List (List Char) × List Char
  | ([], rest) => ([], buf ++ rest)
  | (l :: ls, rest) => ((buf ++ l) :: ls, rest)

theorem splitLines_residual_no_nl (s : List Char) : '\n' ∉ (splitLines s).2 := by
  induction s with
  | nil => simp [splitLines]
  | cons c rest ih =>
    by_cases hc : c = '\n'
    · simpa [splitLines, hc] using ih
    · rcases hls : (splitLines rest).1 with _ | ⟨l, ls'⟩
      · simp only [splitLines, hls, if_neg hc, List.mem_cons, not_or]
        exact ⟨fun he => hc he.symm, ih⟩
      · simpa [splitLines, hls, hc] using ih

theorem splitLines_of_no_nl {s : List Char} (h : '\n' ∉ s) : splitLines s = ([], s) := by
  induction s with
  | nil => simp [splitLines]
  | cons c rest ih =>
    simp only [List.mem_cons, not_or] at h
    have hc : ¬ c = '\n' := fun he => h.1 he.symm
    simp [splitLines, ih h.2, hc]

theorem splitLines_append (x y : List Char) :
    splitLines (x ++ y) =
      ((splitLines x).1 ++ (mergeSplit (splitLines x).2 (splitLines y)).1,
       (mergeSplit (splitLines x).2 (splitLines y)).2) := by
  induction x with
  | nil =>
    rcases hy : splitLines y with ⟨ls, rest⟩
    cases ls <;> simp [splitLines, mergeSplit, hy]
  | cons c x' ih =>
    rcases hy : splitLines y with ⟨lsy, resty⟩
    rcases hx : splitLines x' with ⟨lsx, restx⟩
    rw [hy, hx] at ih
    by_cases hc : c = '\n' <;>
      cases lsy <;> cases lsx <;>
        simp_all [splitLines, mergeSplit, List.cons_append]

theorem emitLines_append {σ J : Type} (parse : σ → List Char → σ × Option (StreamChunk J))
    (st : σ) (ls1 ls2 : List (List Char)) :
    emitLines parse st (ls1 ++ ls2) =
      ((emitLines parse (emitLines parse st ls1).1 ls2).1,
       (emitLines parse st ls1).2 ++ (emitLines parse (emitLines parse st ls1).1 ls2).2) := by
  induction ls1 generalizing st with
  | nil => simp [emitLines]
  | cons l ls ih =>
    by_cases hb : isBlank l
    · simp [emitLines, hb, ih]
    · simp [emitLines, hb, ih]

theorem feedChunk_append {σ J : Type} (parse : σ → List Char → σ × Option (StreamChunk J))
    (s : σ × List Char) (a b : List Char) :
    feedChunk parse s (a ++ b) =
      ((feedChunk parse (feedChunk parse s a).1 b).1,
       (feedChunk parse s a).2 ++ (feedChunk parse (feedChunk parse s a).1 b).2) := by
  have hres : '\n' ∉ (splitLines (s.2 ++ a)).2 := splitLines_residual_no_nl _
  simp only [feedChunk]
  rw [show s.2 ++ (a ++ b) = (s.2 ++ a) ++ b by simp,
    splitLines_append (s.2 ++ a) b,
    splitLines_append ((splitLines (s.2 ++ a)).2) b,
    splitLines_of_no_nl hres]
  simp [mergeSplit, emitLines_append]

theorem feedChunks_eq_flatten {σ J : Type} (parse : σ → List Char → σ × Option (StreamChunk J))
    (s : σ × List Char) (hs : '\n' ∉ s.2) (chunks : List (List Char)) :
    feedChunks parse s chunks = feedChunk parse s chunks.flatten := by
  induction chunks generalizing s with
  | nil =>
    simp [feedChunks, feedChunk, splitLines_of_no_nl hs, emitLines]
  | cons c cs ih =>
    have hres : '\n' ∉ (feedChunk parse s c).1.2 := by
      simp only [feedChunk]
      exact splitLines_residual_no_nl _
    simp only [feedChunks, List.flatten_cons]
    rw [ih _ hres, feedChunk_append]

/-! ## `ProviderManager._parseStreamLine`

The parser is duck-typed over the JSON shapes of each line.  Following the
spec's design note, the closed set of record shapes the source code
distinguishes is modelled as the inductive `ClaudeEvent`; decoding a raw
line into one of these shapes is the `JSON.parse` step left abstract.
String-typed JSON fields read with `x || ''` / truthiness tests are carried
as plain `String`s, with the empty string playing the role of
missing/falsy.  `JSON.parse` of accumulated tool input is the abstract
parameter `jparse` (`none` = throw). -/

/-- A content block of an `assistant` / `user` message's `content` array, as
far as `_parseStreamLine` inspects it.  For `tool_result` blocks the source
computes `typeof block.content === 'string' ? block.content : JSON.stringify(block.content)`;
the resulting string is carried directly. -/
inductive ContentBlock (J : Type) where
  | toolUseBlock (id name : String) (input : J)
  | toolResultBlock (toolUseId : String) (content : String) (isError : Bool)
  | otherBlock
  deriving DecidableEq, Repr

/-- The closed set of line shapes `ProviderManager._parseStreamLine`
distinguishes.  `streamEvent*` constructors are the
`{"type":"stream_event","event":{...}}` wrapper cases, with `index` the
block index (`nestedEvent.index ?? -1`, hence `Int`). -/
inductive ClaudeEvent (J : Type) where
  /-- `content_block_delta` with `delta.type === 'text_delta'`. -/
  | textDelta (index : Int) (text : String)
  /-- `content_block_delta` with `delta.type === 'thinking_delta'`. -/
  | thinkingDelta (index : Int) (thinking : String)
  /-- `content_block_delta` with `delta.type === 'input_json_delta'`;
  `partialJson` is `delta.partial_json || ''`. -/
  | inputJsonDelta (index : Int) (partialJson : String)
  /-- `content_block_delta` with an unrecognised `delta.type`. -/
  | otherDelta (index : Int)
  /-- `content_block_start` with `content_block.type === 'tool_use'`. -/
  | blockStartToolUse (index : Int) (id name : String)
  /-- `content_block_start` with `content_block.type === 'thinking'`. -/
  | blockStartThinking (index : Int)
  /-- `content_block_start` with another block type. -/
  | blockStartOther (index : Int)
  /-- `content_block_stop`. -/
  | blockStop (index : Int)
  /-- `message_start` / `message_delta` / `message_stop`, and any other
  nested event type. -/
  | otherStreamEvent
  /-- Top-level `{"type":"result"}`; `result` is `data.result` with the
  empty string for missing/falsy. -/
  | resultEvent (result : String)
  /-- Top-level `{"type":"system"}`; `sessionId` is
  `data.session_id || data.sessionId` with `""` for missing/falsy. -/
  | systemEvent (subtype : String) (sessionId : String)
  /-- Top-level `{"type":"assistant"}` with its `message.content` blocks
  (empty list when `message?.content` is missing). -/
  | assistantEvent (blocks : List (ContentBlock J))
  /-- Top-level `{"type":"error"}`; `message` is
  `data.error?.message || data.message || 'Unknown error'` already
  resolved. -/
  | errorEvent (message : String)
  /-- Top-level `{"type":"user"}` with `message.content` blocks. -/
  | userEvent (blocks : List (ContentBlock J))
  /-- Top-level `{"type":"tool_result"}` with its resolved fields. -/
  | toolResultEvent (toolUseId : String) (toolName : String) (content : String) (isError : Bool)
  /-- A top-level JSON object of any other `type` (falls through to
  `return null`). -/
  | unknownJson
  /-- `JSON.parse` threw: the raw line itself, handled by the catch
  block. -/
  | rawLine (line : String)
  deriving DecidableEq, Repr

/-- One entry of `_activeToolCalls`. -/
structure ToolAcc where
  id : String
  name : String
  inputJson : String
  deriving DecidableEq, Repr

/-- Lookup in a JS `Map` modelled as an association list (first entry for
the key; a `Map` holds each key at most once). -/
def mapGet {κ α : Type} [DecidableEq κ] : List (κ × α) → κ → Option α
  | [], _ => none
  | e :: m, k => if e.1 = k then some e.2 else mapGet m k

/-- `Map.set`: overwrite the entry for `k` in place, or append a fresh one
at the end (JS `Map` insertion-order semantics). -/
def mapSet {κ α : Type} [DecidableEq κ] : List (κ × α) → κ → α → List (κ × α)
  | [], k, v => [(k, v)]
  | e :: m, k, v => if e.1 = k then (k, v) :: m else e :: mapSet m k v

/-- `Map.delete`: drop the entry for `k`, keep the rest in order. -/
def mapDel {κ α : Type} [DecidableEq κ] : List (κ × α) → κ → List (κ × α)
  | [], _ => []
  | e :: m, k => if e.1 = k then mapDel m k else e :: mapDel m k

/-- The mutable fields of `ProviderManager` that `_parseStreamLine`
touches. -/
structure ParseState where
  activeToolCalls : List (Int × ToolAcc)
  currentSessionId : Option String
  deriving DecidableEq, Repr

/-- The first `tool_use` block of an assistant message's content array (the
`for` loop returns on the first match). -/
def firstToolUse {J : Type} : List (ContentBlock J) → Option (String × String × J)
  | [] => none
  | ContentBlock.toolUseBlock id name input :: _ => some (id, name, input)
  | _ :: rest => firstToolUse rest

/-- The first `tool_result` block of a user message's content array. -/
def firstToolResult {J : Type} : List (ContentBlock J) → Option (String × String × Bool)
  | [] => none
  | ContentBlock.toolResultBlock id content isError :: _ => some (id, content, isError)
  | _ :: rest => firstToolResult rest

/-- The `content_block_stop` input resolution: start from `{}`, and if the
accumulated text is non-empty, try `JSON.parse` on it, keeping `{}` if the
parse throws. -/
def resolveToolInput {J : Type} (jparse : String → Option J) (emptyJ : J)
    (inputJson : String) : J :=
  if inputJson ≠ "" then (jparse inputJson).getD emptyJ else emptyJ

/-- `ProviderManager._parseStreamLine`, one line.  `jparse` abstracts
`JSON.parse` on accumulated tool-input text (`none` = parse error),
`emptyJ` the empty JSON object `{}`. -/
def parseStreamLine {J : Type} (jparse : String → Option J) (emptyJ : J)
    (st : ParseState) (ev : ClaudeEvent J) : ParseState × Option (StreamChunk J) :=
  match ev with
  | ClaudeEvent.textDelta _ text => (st, some (StreamChunk.text text))
  | ClaudeEvent.thinkingDelta _ thinking => (st, some (StreamChunk.thinking thinking))
  | ClaudeEvent.inputJsonDelta index partialJson =>
    match mapGet st.activeToolCalls index with
    | some acc =>
      let updated := mapSet st.activeToolCalls index ({ acc with inputJson := acc.inputJson ++ partialJson })
      ({ st with activeToolCalls := updated }, none)
    | none => (st, none)
  | ClaudeEvent.otherDelta _ => (st, none)
  | ClaudeEvent.blockStartToolUse index id name =>
    let updated := mapSet st.activeToolCalls index ({ id := id, name := name, inputJson := "" })
    ({ st with activeToolCalls := updated },
     some (StreamChunk.toolUse
       { id := id, name := name, input := emptyJ, status := ToolStatus.running }))
  | ClaudeEvent.blockStartThinking _ => (st, some (StreamChunk.thinking ""))
  | ClaudeEvent.blockStartOther _ => (st, none)
  | ClaudeEvent.blockStop index =>
    match mapGet st.activeToolCalls index with
    | some completedTool =>
      let parsedInput := resolveToolInput jparse emptyJ completedTool.inputJson
      ({ st with activeToolCalls := mapDel st.activeToolCalls index },
       some (StreamChunk.toolUse
         { id := completedTool.id, name := completedTool.name,
           input := parsedInput, status := ToolStatus.running }))
    | none => (st, none)
  | ClaudeEvent.otherStreamEvent => (st, none)
  | ClaudeEvent.resultEvent result =>
    if result ≠ "" then (st, some (StreamChunk.text result)) else (st, none)
  | ClaudeEvent.systemEvent subtype sessionId =>
    if subtype = "init" ∧ sessionId ≠ "" ∧ st.currentSessionId = none then
      ({ st with currentSessionId := some sessionId },
       some (StreamChunk.sessionActive sessionId))
    else (st, none)
  | ClaudeEvent.assistantEvent blocks =>
    match firstToolUse blocks with
    | some (id, name, input) =>
      (st, some (StreamChunk.toolUse
        { id := id, name := name, input := input, status := ToolStatus.running }))
    | none => (st, none)
  | ClaudeEvent.errorEvent message => (st, some (StreamChunk.error message))
  | ClaudeEvent.userEvent blocks =>
    match firstToolResult blocks with
    | some (id, content, isError) =>
      (st, some (StreamChunk.toolResult
        { id := id, name := "", input := emptyJ, output := some content,
          status := if isError then ToolStatus.failed else ToolStatus.completed }))
    | none => (st, none)
  | ClaudeEvent.toolResultEvent toolUseId toolName content isError =>
    (st, some (StreamChunk.toolResult
      { id := toolUseId, name := toolName, input := emptyJ, output := some content,
        status := if isError then ToolStatus.failed else ToolStatus.completed }))
  | ClaudeEvent.unknownJson => (st, none)
  | ClaudeEvent.rawLine line =>
    if jsTrim line ≠ "" then (st, some (StreamChunk.text line)) else (st, none)

/-- Run `_parseStreamLine` over a sequence of events, collecting the emitted
chunks in order. -/
def runParse {J : Type} (jparse : String → Option J) (emptyJ : J) :
    ParseState → List (ClaudeEvent J) → ParseState × List (StreamChunk J)
  | st, [] => (st, [])
  | st, ev :: evs =>
    let r := parseStreamLine jparse emptyJ st ev
    let r' := runParse jparse emptyJ r.1 evs
    (r'.1, r.2.toList ++ r'.2)

/-! ## The exit-code / stderr tails of the two stream loops (C7)

After the stdout loop and remainder handling, `BaseCliProvider.processStream`
awaits the exit code and runs (second revision, the authoritative one):

```
// Show stderr errors if process failed, even if session/metadata was yielded
if (exitCode !== 0 && exitCode !== null && stderrCollector) {
  yield { type: 'error', content: stderrCollector };
} else if (!hasYieldedContent && stderrCollector) {
  yield { type: 'error', content: `No response received. stderr: ...` };
}
```

while `ProviderManager._sendClaudeCodeMessage` keeps the older guard
`exitCode !== 0 && exitCode !== null && !hasYieldedContent && stderrOutput`.
`exitCode` is `Option Int` (`none` = JS `null`). -/

instance {ε α : Type} [DecidableEq ε] [DecidableEq α] : DecidableEq (Except ε α) := fun a b =>
  match a, b with
  | Except.error e, Except.error e' =>
    if h : e = e' then isTrue (congrArg Except.error h)
    else isFalse (fun hc => h (Except.error.inj hc))
  | Except.error _, Except.ok _ => isFalse (fun hc => Except.noConfusion hc)
  | Except.ok _, Except.error _ => isFalse (fun hc => Except.noConfusion hc)
  | Except.ok v, Except.ok v' =>
    if h : v = v' then isTrue (congrArg Except.ok h)
    else isFalse (fun hc => h (Except.ok.inj hc))

/-- What `yield* this.processStream(...)` does from `sendMessage`'s point of
view: the chunks it yielded, then optionally the exception it threw (a
rejected `waitForProcess`, for instance). -/
structure StreamOutcome (J : Type) where
  chunks : List (StreamChunk J)
  thrown : Option String
  deriving DecidableEq, Repr

/-- The outcome of each stage of one `sendMessage` call. -/
structure SendInputs (J : Type) where
  /-- `this.getCliPath()` — abstract, called before the `try`. -/
  cliPathResult : Except String String
  /-- `this.buildCliArgs(settings, this.hasSession())` — abstract, before
  the `try`. -/
  argsResult : Except String (List String)
  /-- `await this.buildPromptAsync(...)` — before the `try`. -/
  promptResult : Except String String
  /-- Everything in the `try` before the stream: `getThinkingTokens`, env
  assembly, configuration read, `spawn`, stderr handler, stdin write. -/
  spawnResult : Except String Unit
  /-- `yield* this.processStream(stderrOutput)`. -/
  streamOutcome : StreamOutcome J
  /-- `this.getStoredUsage()`. -/
  storedUsage : Option Usage
  deriving DecidableEq, Repr

/-- `BaseCliProvider.handleError`: convert a caught exception into an
`error` chunk carrying its message. -/
def handleError {J : Type} (errorMessage : String) : StreamChunk J :=
  StreamChunk.error errorMessage

/-- `BaseCliProvider.sendMessage`: the chunk sequence delivered to the
consumer (`.ok`), or the raw exception that escapes it (`.error`). -/
def sendMessage {J : Type} (inp : SendInputs J) : Except String (List (StreamChunk J)) :=
  match inp.cliPathResult with
  | Except.error e => Except.error e
  | Except.ok _ =>
  match inp.argsResult with
  | Except.error e => Except.error e
  | Except.ok _ =>
  match inp.promptResult with
  | Except.error e => Except.error e
  | Except.ok _ =>
  match inp.spawnResult with
  | Except.error e => Except.ok [handleError e]
  | Except.ok _ =>
  match inp.streamOutcome.thrown with
  | some e => Except.ok (inp.streamOutcome.chunks ++ [handleError e])
  | none => Except.ok (inp.streamOutcome.chunks ++ [StreamChunk.done inp.storedUsage])

/-! ## `BaseCliProvider.waitForProcess` (C2)

`PROCESS_TIMEOUT_MS` / `PROCESS_KILL_GRACE_PERIOD_MS` are imported from
`src/constants.ts`, which is not among the provided source files. -/

/-- Modelled from the spec: the hard-timeout constant `PROCESS_TIMEOUT_MS`
of `src/constants.ts` (missing from the sources); §4.1 fixes the default at
~120 s.  None of the statements below depend on the numeric value. -/
def PROCESS_TIMEOUT_MS : Nat := 120000

/-- Modelled from the spec: the grace-period constant
`PROCESS_KILL_GRACE_PERIOD_MS` of `src/constants.ts` (missing from the
sources); §4.1 fixes the default at ~5 s. -/
def PROCESS_KILL_GRACE_PERIOD_MS : Nat := 5000

/-- A POSIX signal name as passed to `ChildProcess.kill`. -/
inductive Sig where
  | sigterm
  | sigkill
  deriving DecidableEq, Repr

/-- A child process as `waitForProcess` observes it.  `killedFlag` is
Node's `ChildProcess.killed` property: it records that `kill()` was called
successfully, NOT that the process has terminated.  `naturalCloseTime` is
when (ms after the wait starts) the process would close of its own accord
(`none` = never); `diesOnSigterm` says whether a SIGTERM actually
terminates it. -/
structure ChildProcessModel where
  killedFlag : Bool
  diesOnSigterm : Bool
  naturalCloseTime : Option Nat
  exitCode : Int
  deriving DecidableEq, Repr

/-- The observable outcome of one `waitForProcess` call: the signals the
timeout machinery sends (time, signal) and when/how the promise settles. -/
structure WaitOutcome where
  signals : List (Nat × Sig)
  completionTime : Nat
  result : Except String (Option Int)
  deriving DecidableEq, Repr

/-- The hard-timeout path of `waitForProcess`: the `setTimeout` callback at
`PROCESS_TIMEOUT_MS` runs `if (this._currentProcess && !this._currentProcess.killed)`
→ `kill('SIGTERM')` (which sets `killed`), schedules the inner callback at
`+ PROCESS_KILL_GRACE_PERIOD_MS` with the same guard → `kill('SIGKILL')`,
and rejects with `Error('Process timeout')`. -/
def timeoutPath (proc : ChildProcessModel) : WaitOutcome :=
  let sigtermSent := !proc.killedFlag
  let killedFlagAfter := proc.killedFlag || sigtermSent
  let sigkillSent := !killedFlagAfter
  { signals :=
      (if sigtermSent then [(PROCESS_TIMEOUT_MS, Sig.sigterm)] else []) ++
      (if sigkillSent then [(PROCESS_TIMEOUT_MS + PROCESS_KILL_GRACE_PERIOD_MS, Sig.sigkill)] else []),
    completionTime := PROCESS_TIMEOUT_MS,
    result := Except.error "Process timeout" }

/-- `BaseCliProvider.waitForProcess`: with no current process the promise
resolves `null` at once; a `close` event before the timeout resolves the
exit code and clears the timer; otherwise the timeout path runs.  (A close
arriving in the same millisecond as the timeout is treated as the timeout
firing first; nothing below depends on the tie.) -/
def waitForProcess (p : Option ChildProcessModel) : WaitOutcome :=
  match p with
  | none => { signals := [], completionTime := 0, result := Except.ok none }
  | some proc =>
    match proc.naturalCloseTime with
    | some t =>
      if t < PROCESS_TIMEOUT_MS then
        { signals := [], completionTime := t, result := Except.ok (some proc.exitCode) }
      else
        timeoutPath proc
    | none => timeoutPath proc

/-- Whether the child is still running at time `t` given the signals sent:
it is gone once its natural close time passes, once a SIGTERM it honours
arrives, or once a SIGKILL arrives. -/
def aliveAt (proc : ChildProcessModel) (signals : List (Nat × Sig)) (t : Nat) : Bool :=
  (match proc.naturalCloseTime with
   | some c => decide (t < c)
   | none => true) &&
  signals.all (fun s =>
    match s.2 with
    | Sig.sigterm => !proc.diesOnSigterm || decide (t < s.1)
    | Sig.sigkill => decide (t < s.1))

/-! ## `PermissionManager` (C8, C9)

Promise resolvers are one-shot callbacks stored in `_resolvers`; firing one
is modelled as an effect `(requestId, approved)` returned alongside the new
state.  `postToWebview` notifications are outside this embedding.  The
source mutates a request's `status` field immediately before deleting it
from `_pendingRequests`; since the object is removed in the same step, the
mutation is not observable in the remaining state. -/

/-- `AccessLevel`. -/
inductive AccessLevel where
  | readOnly
  | askPermission
  | fullAccess
  deriving DecidableEq, Repr

/-- `PermissionActionType`. -/
inductive PermissionActionType where
  | fileRead
  | fileCreate
  | fileEdit
  | fileDelete
  | bashCommand
  | webRequest
  | multiFileEdit
  deriving DecidableEq, Repr

/-- The `decision` field of a `PermissionResponse`. -/
inductive PermissionDecision where
  | approve
  | deny
  | alwaysAllow
  deriving DecidableEq, Repr

/-- `PermissionTimeoutBehavior`. -/
inductive PermissionTimeoutBehavior where
  | autoAccept
  | autoReject
  | requireAction
  deriving DecidableEq, Repr

/-- `PermissionConfig` (timeout in seconds; `0` disables expiry). -/
structure PermissionConfig where
  timeout : Nat
  timeoutBehavior : PermissionTimeoutBehavior
  deriving DecidableEq, Repr

/-- `PermissionRequest.status`. -/
inductive RequestStatus where
  | pending
  | approved
  | denied
  | expired
  deriving DecidableEq, Repr

/-- A `PermissionRequest` record (`details` is carried as an opaque
string). -/
structure PermissionRequest where
  id : String
  actionType : PermissionActionType
  title : String
  description : String
  details : String
  status : RequestStatus
  createdAt : Nat
  expiresAt : Nat
  toolCallId : Option String
  deriving DecidableEq, Repr

/-- The mutable fields of `PermissionManager`.  `resolvers` and
`timeoutHandles` are the key sets of the corresponding maps (the stored
callback / timer objects themselves carry no further observable state). -/
structure PMState where
  pendingRequests : List (String × PermissionRequest)
  resolvers : List String
  timeoutHandles : List String
  sessionAccessLevel : AccessLevel
  config : PermissionConfig
  deriving DecidableEq, Repr

/-- How a `requestPermission` call returns: an immediately-resolved boolean
without any pending entry, or a pending promise registered under
`requestId`. -/
inductive RequestOutcome where
  | immediate (approved : Bool)
  | pendingOn (requestId : String)
  deriving DecidableEq, Repr

/-- `PermissionManager.requestPermission`.  `newId` stands for
`this._generateId()` and `now` for `Date.now()`. -/
def requestPermission (st : PMState) (actionType : PermissionActionType)
    (title description details : String) (toolCallId : Option String)
    (newId : String) (now : Nat) : PMState × RequestOutcome :=
  if st.sessionAccessLevel = AccessLevel.fullAccess then
    (st, RequestOutcome.immediate true)
  else if actionType = PermissionActionType.fileRead then
    (st, RequestOutcome.immediate true)
  else
    let expiresAt := if st.config.timeout > 0 then now + st.config.timeout * 1000 else 0
    let request : PermissionRequest :=
      { id := newId, actionType := actionType, title := title,
        description := description, details := details,
        status := RequestStatus.pending, createdAt := now,
        expiresAt := expiresAt, toolCallId := toolCallId }
    let timeoutHandles :=
      if st.config.timeout > 0 ∧ st.config.timeoutBehavior ≠ PermissionTimeoutBehavior.requireAction then
        st.timeoutHandles ++ [newId]
      else st.timeoutHandles
    ({ st with
        pendingRequests := mapSet st.pendingRequests newId request,
        resolvers := st.resolvers ++ [newId],
        timeoutHandles := timeoutHandles },
     RequestOutcome.pendingOn newId)

/-- `PermissionManager.handleResponse`.  Returns the new state and the
resolver firings `(requestId, approved)` this call performs. -/
def handleResponse (st : PMState) (requestId : String) (decision : PermissionDecision) :
    PMState × List (String × Bool) :=
  match mapGet st.pendingRequests requestId with
  | none => (st, [])
  | some _request =>
    let timeoutHandles := st.timeoutHandles.filter (fun h => ¬ h = requestId)
    let pendingRequests := mapDel st.pendingRequests requestId
    let level :=
      if decision = PermissionDecision.alwaysAllow then AccessLevel.fullAccess
      else st.sessionAccessLevel
    if requestId ∈ st.resolvers then
      ({ st with
          pendingRequests := pendingRequests,
          resolvers := st.resolvers.filter (fun r => ¬ r = requestId),
          timeoutHandles := timeoutHandles,
          sessionAccessLevel := level },
       [(requestId, decide (decision ≠ PermissionDecision.deny))])
    else
      ({ st with
          pendingRequests := pendingRequests,
          timeoutHandles := timeoutHandles,
          sessionAccessLevel := level },
       [])

/-- `PermissionManager._handleTimeout`: fires when a request's timer
elapses. -/
def handleTimeout (st : PMState) (requestId : String) : PMState × List (String × Bool) :=
  match mapGet st.pendingRequests requestId with
  | none => (st, [])
  | some request =>
    if request.status ≠ RequestStatus.pending then (st, [])
    else
      let pendingRequests := mapDel st.pendingRequests requestId
      let timeoutHandles := st.timeoutHandles.filter (fun h => ¬ h = requestId)
      let approved := st.config.timeoutBehavior = PermissionTimeoutBehavior.autoAccept
      if requestId ∈ st.resolvers then
        ({ st with
            pendingRequests := pendingRequests,
            resolvers := st.resolvers.filter (fun r => ¬ r = requestId),
            timeoutHandles := timeoutHandles },
         [(requestId, decide approved)])
      else
        ({ st with
            pendingRequests := pendingRequests,
            timeoutHandles := timeoutHandles },
         [])

/-- `PermissionManager.cancelRequest`: always resolves the waiter (if any)
to `false`. -/
def cancelRequest (st : PMState) (requestId : String) : PMState × List (String × Bool) :=
  let pendingRequests := mapDel st.pendingRequests requestId
  let timeoutHandles := st.timeoutHandles.filter (fun h => ¬ h = requestId)
  if requestId ∈ st.resolvers then
    ({ st with
        pendingRequests := pendingRequests,
        resolvers := st.resolvers.filter (fun r => ¬ r = requestId),
        timeoutHandles := timeoutHandles },
     [(requestId, false)])
  else
    ({ st with
        pendingRequests := pendingRequests,
        timeoutHandles := timeoutHandles },
     [])

/-- Helper for `cancelAllRequests`: cancel each id in turn, collecting the
firings. -/
def cancelIds (st : PMState) : List String → PMState × List (String × Bool)
  | [] => (st, [])
  | rid :: rest =>
    let r := cancelRequest st rid
    let r' := cancelIds r.1 rest
    (r'.1, r.2 ++ r'.2)

/-- `PermissionManager.cancelAllRequests`: cancel every currently pending
request (iterating over the pending key set). -/
def cancelAllRequests (st : PMState) : PMState × List (String × Bool) :=
  cancelIds st (st.pendingRequests.map Prod.fst)

/-- `PermissionManager.resetSessionAccessLevel`. -/
def resetSessionAccessLevel (st : PMState) (level : AccessLevel) : PMState :=
  { st with sessionAccessLevel := level }

/-- The operations that can hit a `PermissionManager` after a given point in
a session. -/
inductive PMOp where
  | request (actionType : PermissionActionType) (title description details : String)
      (toolCallId : Option String) (newId : String) (now : Nat)
  | response (requestId : String) (decision : PermissionDecision)
  | timeoutFire (requestId : String)
  | cancel (requestId : String)
  | cancelAll
  | reset (level : AccessLevel)
  deriving DecidableEq, Repr

/-- Whether an operation is the explicit session reset. -/
def PMOp.isReset : PMOp → Bool
  | PMOp.reset _ => true
  | _ => false

/-- Run one operation, returning the new state and the resolver firings it
performs. -/
def applyOp (st : PMState) : PMOp → PMState × List (String × Bool)
  | PMOp.request actionType title description details toolCallId newId now =>
    ((requestPermission st actionType title description details toolCallId newId now).1, [])
  | PMOp.response requestId decision => handleResponse st requestId decision
  | PMOp.timeoutFire requestId => handleTimeout st requestId
  | PMOp.cancel requestId => cancelRequest st requestId
  | PMOp.cancelAll => cancelAllRequests st
  | PMOp.reset level => (resetSessionAccessLevel st level, [])

/-- Run a sequence of operations (discarding the firings). -/
def applyOps (st : PMState) : List PMOp → PMState
  | [] => st
  | op :: ops => applyOps (applyOp st op).1 ops

/-- Whether an operation is addressed at the request `rid`: its own
explicit response, its own timeout firing, or an explicit cancellation. -/
def PMOp.targets (rid : String) : PMOp → Prop
  | PMOp.response requestId _ => requestId = rid
  | PMOp.timeoutFire requestId => requestId = rid
  | PMOp.cancel requestId => requestId = rid
  | PMOp.cancelAll => True
  | _ => False

/-! ## Concrete instances used by witnesses and counterexamples -/

/-- Is a chunk a `session_active` chunk? -/
def isSessionActiveChunk {J : Type} : StreamChunk J → Bool
  | StreamChunk.sessionActive _ => true
  | _ => false

/-- Number of `session_active` chunks in a chunk sequence. -/
def countSessionActive {J : Type} (chunks : List (StreamChunk J)) : Nat :=
  (chunks.filter isSessionActiveChunk).length

/-- A parser state with no open accumulators and no session id. -/
def emptyParseState : ParseState :=
  { activeToolCalls := [], currentSessionId := none }

/-- A `sendMessage` run whose prompt-building stage throws `"boom"` while
every later stage would have succeeded. -/
def promptThrowInputs : SendInputs Unit :=
  { cliPathResult := Except.ok "claude",
    argsResult := Except.ok ["--print"],
    promptResult := Except.error "boom",
    spawnResult := Except.ok (),
    streamOutcome := { chunks := [], thrown := none },
    storedUsage := none }

/-- A `sendMessage` run where every stage succeeds and the stream yields one
text chunk. -/
def sendOkInputs : SendInputs Unit :=
  { cliPathResult := Except.ok "claude",
    argsResult := Except.ok ["--print"],
    promptResult := Except.ok "hi",
    spawnResult := Except.ok (),
    streamOutcome := { chunks := [StreamChunk.text "x"], thrown := none },
    storedUsage := none }

/-- A sample attached context file. -/
def ctxSample : ContextItem :=
  { isSelection := false, path := "a.ts", content := "const x = 1;",
    language := "typescript", startLine := 1, endLine := 1 }

/-- A sample conversation message. -/
def msgSample : Message :=
  { role := "user", content := "hello" }

/-- A live child process that ignores SIGTERM and never exits on its own
(`kill()` not yet called, so `killed` is `false`). -/
def stubbornProcess : ChildProcessModel :=
  { killedFlag := false, diesOnSigterm := false, naturalCloseTime := none, exitCode := 0 }

/-- A sample abstract `JSON.parse` over `Nat`-coded JSON values: parses the
accumulated text `"ab"` to the value `7` and throws on everything else. -/
def sampleJparse (s : String) : Option Nat :=
  if s = "ab" then some 7 else none

/-- A parser state with a stale accumulator at index 1 and no session id. -/
def sampleParseState : ParseState :=
  { activeToolCalls := [(1, { id := "old", name := "OldTool", inputJson := "xx" })],
    currentSessionId := none }

/-- A well-formed NDJSON error-record line containing the two-byte UTF-8
character `é`: the JSON object with `type` `"error"` and `message` `"é"`
(braces written `\x7b`/`\x7d`). -/
def cexErrorLine : String :=
  "\x7b\"type\":\"error\",\"message\":\"é\"\x7d"

/-- The same line as it arrives under byte-by-byte delivery: each of the
two bytes of `é` is decoded alone by `chunk.toString()` and becomes
U+FFFD. -/
def cexErrorLineMangled : String :=
  "\x7b\"type\":\"error\",\"message\":\"��\"\x7d"

/-- The `JSON.parse` duck-typing step of `_parseStreamLine` on the two line
shapes of the boundary counterexample: both are well-formed JSON objects of
`type` `"error"`, whose resolved message (`data.error?.message ||
data.message || 'Unknown error'`) is their `message` field; any other line
is treated as failing `JSON.parse` (the raw-text fallback).  Verifiable by
hand against `JSON.parse` on the two strings. -/
def cexLineDecode (line : String) : ClaudeEvent Nat :=
  if line = cexErrorLine then ClaudeEvent.errorEvent "é"
  else if line = cexErrorLineMangled then ClaudeEvent.errorEvent "��"
  else ClaudeEvent.rawLine line

/-- `_parseStreamLine` as the stream loop's line parser, composed with the
counterexample's JSON decoding. -/
def cexLineParser (st : ParseState) (l : List Char) : ParseState × Option (StreamChunk Nat) :=
  parseStreamLine sampleJparse 0 st (cexLineDecode (String.mk l))

/-- A sample pending permission request `r1`. -/
def sampleReq1 : PermissionRequest :=
  { id := "r1", actionType := PermissionActionType.fileEdit, title := "Edit file",
    description := "edit a.ts", details := "a.ts", status := RequestStatus.pending,
    createdAt := 100, expiresAt := 30100, toolCallId := none }

/-- A second sample pending permission request `r2`. -/
def sampleReq2 : PermissionRequest :=
  { id := "r2", actionType := PermissionActionType.bashCommand, title := "Run command",
    description := "run ls", details := "ls", status := RequestStatus.pending,
    createdAt := 200, expiresAt := 30200, toolCallId := some "t2" }

/-- A `PermissionManager` state with `r1` and `r2` pending, both with live
resolvers and timers, in an `ask-permission` session. -/
def pmSample : PMState :=
  { pendingRequests := [("r1", sampleReq1), ("r2", sampleReq2)],
    resolvers := ["r1", "r2"],
    timeoutHandles := ["r1", "r2"],
    sessionAccessLevel := AccessLevel.askPermission,
    config := { timeout := 30, timeoutBehavior := PermissionTimeoutBehavior.autoReject } }

/-! ## Helper lemmas -/

theorem mapGet_mapSet_self {κ α : Type} [DecidableEq κ] (m : List (κ × α)) (k : κ) (v : α) :
    mapGet (mapSet m k v) k = some v := by
  induction m with
  | nil => simp [mapGet, mapSet]
  | cons e m' ih =>
    by_cases he : e.1 = k
    · simp [mapGet, mapSet, he]
    · simp [mapGet, mapSet, he, ih]

theorem mapGet_mapSet_ne {κ α : Type} [DecidableEq κ] (m : List (κ × α)) (k j : κ) (v : α)
    (h : j ≠ k) : mapGet (mapSet m k v) j = mapGet m j := by
  have hkj : ¬ k = j := fun hc => h hc.symm
  induction m with
  | nil => simp [mapGet, mapSet, hkj]
  | cons e m' ih =>
    by_cases he : e.1 = k
    · have hj : ¬ e.1 = j := by rw [he]; exact hkj
      simp [mapGet, mapSet, he, hj, hkj]
    · by_cases hej : e.1 = j
      · simp [mapGet, mapSet, he, hej, h]
      · simp [mapGet, mapSet, he, hej, ih]

theorem mapGet_mapDel_self {κ α : Type} [DecidableEq κ] (m : List (κ × α)) (k : κ) :
    mapGet (mapDel m k) k = none := by
  induction m with
  | nil => simp [mapGet, mapDel]
  | cons e m' ih =>
    by_cases he : e.1 = k
    · simp [mapDel, he, ih]
    · simp [mapGet, mapDel, he, ih]

theorem mapGet_mapDel_ne {κ α : Type} [DecidableEq κ] (m : List (κ × α)) (k j : κ)
    (h : j ≠ k) : mapGet (mapDel m k) j = mapGet m j := by
  have hkj : ¬ k = j := fun hc => h hc.symm
  induction m with
  | nil => simp [mapGet, mapDel]
  | cons e m' ih =>
    by_cases he : e.1 = k
    · have hj : ¬ e.1 = j := by rw [he]; exact hkj
      simp [mapGet, mapDel, he, hj, ih, hkj]
    · by_cases hej : e.1 = j
      · simp [mapGet, mapDel, he, hej, h]
      · simp [mapGet, mapDel, he, hej, ih]

theorem runParse_append {J : Type} (jparse : String → Option J) (emptyJ : J)
    (st : ParseState) (evs1 evs2 : List (ClaudeEvent J)) :
    runParse jparse emptyJ st (evs1 ++ evs2) =
      ((runParse jparse emptyJ (runParse jparse emptyJ st evs1).1 evs2).1,
       (runParse jparse emptyJ st evs1).2 ++
         (runParse jparse emptyJ (runParse jparse emptyJ st evs1).1 evs2).2) := by
  induction evs1 generalizing st with
  | nil => simp [runParse]
  | cons ev evs ih => simp [runParse, ih]

theorem runParse_cons {J : Type} (jparse : String → Option J) (emptyJ : J)
    (st : ParseState) (ev : ClaudeEvent J) (evs : List (ClaudeEvent J)) :
    runParse jparse emptyJ st (ev :: evs) =
      ((runParse jparse emptyJ (parseStreamLine jparse emptyJ st ev).1 evs).1,
       (parseStreamLine jparse emptyJ st ev).2.toList ++
         (runParse jparse emptyJ (parseStreamLine jparse emptyJ st ev).1 evs).2) := by
  simp [runParse]

theorem runParse_inputJsonDeltas {J : Type} (jparse : String → Option J) (emptyJ : J)
    (idx : Int) (frags : List String) (st : ParseState) (acc : ToolAcc)
    (h : mapGet st.activeToolCalls idx = some acc) :
    (runParse jparse emptyJ st (frags.map (ClaudeEvent.inputJsonDelta idx))).2 = [] ∧
    mapGet (runParse jparse emptyJ st
        (frags.map (ClaudeEvent.inputJsonDelta idx))).1.activeToolCalls idx
      = some { id := acc.id, name := acc.name,
               inputJson := frags.foldl (fun a b => a ++ b) acc.inputJson } ∧
    (∀ j, j ≠ idx →
      mapGet (runParse jparse emptyJ st
          (frags.map (ClaudeEvent.inputJsonDelta idx))).1.activeToolCalls j
        = mapGet st.activeToolCalls j) ∧
    (runParse jparse emptyJ st (frags.map (ClaudeEvent.inputJsonDelta idx))).1.currentSessionId
      = st.currentSessionId := by
  induction frags generalizing st acc with
  | nil => exact ⟨rfl, h, fun j hj => rfl, rfl⟩
  | cons f fs ih =>
    have hstep : parseStreamLine jparse emptyJ st (ClaudeEvent.inputJsonDelta idx f) =
        ({ st with activeToolCalls := mapSet st.activeToolCalls idx (ToolAcc.mk acc.id acc.name (acc.inputJson ++ f)) }, none) := by
      simp [parseStreamLine, h]
    obtain ⟨ih1, ih2, ih3, ih4⟩ := ih
      { st with activeToolCalls := mapSet st.activeToolCalls idx (ToolAcc.mk acc.id acc.name (acc.inputJson ++ f)) }
      (ToolAcc.mk acc.id acc.name (acc.inputJson ++ f))
      (mapGet_mapSet_self _ _ _)
    refine ⟨?_, ?_, fun j hj => ?_, ?_⟩
    · rw [List.map_cons, runParse_cons, hstep]
      simpa using ih1
    · rw [List.map_cons, runParse_cons, hstep]
      simpa using ih2
    · rw [List.map_cons, runParse_cons, hstep]
      have hfr := ih3 j hj
      simp only [] at hfr ⊢
      rw [hfr]
      exact mapGet_mapSet_ne _ _ _ _ hj
    · rw [List.map_cons, runParse_cons, hstep]
      simpa using ih4

theorem countSessionActive_append {J : Type} (a b : List (StreamChunk J)) :
    countSessionActive (a ++ b) = countSessionActive a + countSessionActive b := by
  simp [countSessionActive, List.filter_append]

theorem parseStreamLine_sessionActive_inv {J : Type} (jparse : String → Option J)
    (emptyJ : J) (st : ParseState) (ev : ClaudeEvent J) (sid : String)
    (h : (parseStreamLine jparse emptyJ st ev).2 = some (StreamChunk.sessionActive sid)) :
    ev = ClaudeEvent.systemEvent "init" sid ∧ st.currentSessionId = none ∧
    (parseStreamLine jparse emptyJ st ev).1.currentSessionId = some sid := by
  cases ev
  case inputJsonDelta i pj =>
    simp only [parseStreamLine] at h
    split at h <;> simp at h
  case blockStop i =>
    simp only [parseStreamLine] at h
    split at h <;> simp at h
  case resultEvent r =>
    simp only [parseStreamLine] at h
    split at h <;> simp at h
  case assistantEvent blocks =>
    simp only [parseStreamLine] at h
    split at h <;> simp at h
  case userEvent blocks =>
    simp only [parseStreamLine] at h
    split at h <;> simp at h
  case rawLine line =>
    simp only [parseStreamLine] at h
    split at h <;> simp at h
  case systemEvent subtype sessionId =>
    simp only [parseStreamLine] at h
    split at h
    case isTrue hcond =>
      obtain ⟨hsub, hne, hnone⟩ := hcond
      simp only [Option.some.injEq, StreamChunk.sessionActive.injEq] at h
      subst h
      refine ⟨by rw [hsub], hnone, ?_⟩
      simp [parseStreamLine, hsub, hne, hnone]
    case isFalse hcond => simp at h
  all_goals simp [parseStreamLine] at h

theorem parseStreamLine_preserves_sessionId {J : Type} (jparse : String → Option J)
    (emptyJ : J) (st : ParseState) (ev : ClaudeEvent J) (s : String)
    (hs : st.currentSessionId = some s) :
    (parseStreamLine jparse emptyJ st ev).1.currentSessionId = some s := by
  cases ev <;> simp only [parseStreamLine] <;> try simp [hs]
  all_goals (split <;> simp [hs])

theorem runParse_no_sessionActive_of_some {J : Type} (jparse : String → Option J)
    (emptyJ : J) (evs : List (ClaudeEvent J)) (st : ParseState) (s : String)
    (hs : st.currentSessionId = some s) :
    countSessionActive (runParse jparse emptyJ st evs).2 = 0 := by
  induction evs generalizing st with
  | nil => rfl
  | cons ev evs ih =>
    rw [runParse_cons, countSessionActive_append,
      ih _ (parseStreamLine_preserves_sessionId jparse emptyJ st ev s hs)]
    rcases hout : (parseStreamLine jparse emptyJ st ev).2 with _ | c
    · rfl
    · cases c
      case sessionActive sid =>
        obtain ⟨_, hnone, _⟩ := parseStreamLine_sessionActive_inv jparse emptyJ st ev sid hout
        rw [hs] at hnone
        exact absurd hnone (by simp)
      all_goals simp [countSessionActive, isSessionActiveChunk]

theorem runParse_sessionActive_at_most_once {J : Type} (jparse : String → Option J)
    (emptyJ : J) (evs : List (ClaudeEvent J)) (st : ParseState) :
    countSessionActive (runParse jparse emptyJ st evs).2 ≤ 1 := by
  induction evs generalizing st with
  | nil => exact Nat.zero_le 1
  | cons ev evs ih =>
    rw [runParse_cons, countSessionActive_append]
    rcases hout : (parseStreamLine jparse emptyJ st ev).2 with _ | c
    · simpa [countSessionActive] using ih (parseStreamLine jparse emptyJ st ev).1
    · cases c
      case sessionActive sid =>
        obtain ⟨_, _, hset⟩ := parseStreamLine_sessionActive_inv jparse emptyJ st ev sid hout
        have hzero := runParse_no_sessionActive_of_some jparse emptyJ evs
          (parseStreamLine jparse emptyJ st ev).1 sid hset
        rw [hzero]
        simp [countSessionActive, isSessionActiveChunk]
      all_goals
        simpa [countSessionActive, isSessionActiveChunk] using
          ih (parseStreamLine jparse emptyJ st ev).1

theorem requestPermission_fullAccess (st : PMState)
    (h : st.sessionAccessLevel = AccessLevel.fullAccess)
    (actionType : PermissionActionType) (title description details : String)
    (toolCallId : Option String) (newId : String) (now : Nat) :
    requestPermission st actionType title description details toolCallId newId now =
      (st, RequestOutcome.immediate true) := by
  simp [requestPermission, h]

theorem handleResponse_preserves_fullAccess (st : PMState) (rid : String)
    (dec : PermissionDecision) (h : st.sessionAccessLevel = AccessLevel.fullAccess) :
    (handleResponse st rid dec).1.sessionAccessLevel = AccessLevel.fullAccess := by
  unfold handleResponse
  split
  · exact h
  · by_cases hd : dec = PermissionDecision.alwaysAllow <;>
      simp only [hd] <;> split <;> simp [h]

theorem handleTimeout_level (st : PMState) (rid : String) :
    (handleTimeout st rid).1.sessionAccessLevel = st.sessionAccessLevel := by
  unfold handleTimeout
  split
  · rfl
  · split
    · rfl
    · dsimp only
      split <;> rfl

theorem cancelRequest_level (st : PMState) (rid : String) :
    (cancelRequest st rid).1.sessionAccessLevel = st.sessionAccessLevel := by
  unfold cancelRequest
  split <;> rfl

theorem cancelIds_level (ids : List String) (st : PMState) :
    (cancelIds st ids).1.sessionAccessLevel = st.sessionAccessLevel := by
  induction ids generalizing st with
  | nil => rfl
  | cons i rest ih =>
    simp only [cancelIds]
    rw [ih (cancelRequest st i).1, cancelRequest_level]

theorem requestPermission_level (st : PMState) (actionType : PermissionActionType)
    (title description details : String) (toolCallId : Option String)
    (newId : String) (now : Nat) :
    (requestPermission st actionType title description details toolCallId newId now).1.sessionAccessLevel
      = st.sessionAccessLevel := by
  unfold requestPermission
  split
  · rfl
  · split <;> rfl

theorem applyOp_preserves_fullAccess (st : PMState) (op : PMOp)
    (hop : op.isReset = false) (h : st.sessionAccessLevel = AccessLevel.fullAccess) :
    (applyOp st op).1.sessionAccessLevel = AccessLevel.fullAccess := by
  cases op with
  | request a t d dt tc id now => rw [applyOp, requestPermission_level]; exact h
  | response r dec => exact handleResponse_preserves_fullAccess st r dec h
  | timeoutFire r => rw [applyOp, handleTimeout_level]; exact h
  | cancel r => rw [applyOp, cancelRequest_level]; exact h
  | cancelAll => rw [applyOp, cancelAllRequests, cancelIds_level]; exact h
  | reset level => simp [PMOp.isReset] at hop

theorem applyOps_preserves_fullAccess (st : PMState) (ops : List PMOp)
    (hops : ∀ op ∈ ops, op.isReset = false)
    (h : st.sessionAccessLevel = AccessLevel.fullAccess) :
    (applyOps st ops).sessionAccessLevel = AccessLevel.fullAccess := by
  induction ops generalizing st with
  | nil => exact h
  | cons op rest ih =>
    exact ih (applyOp st op).1 (fun o ho => hops o (List.mem_cons_of_mem op ho))
      (applyOp_preserves_fullAccess st op (hops op (List.mem_cons_self op rest)) h)

theorem handleResponse_fire_keys (st : PMState) (rid : String) (dec : PermissionDecision)
    (k : String) (b : Bool) (h : (k, b) ∈ (handleResponse st rid dec).2) : k = rid := by
  unfold handleResponse at h
  split at h
  · simp at h
  · dsimp only at h
    split at h
    · simp at h
      exact h.1
    · simp at h

theorem handleTimeout_fire_keys (st : PMState) (rid : String)
    (k : String) (b : Bool) (h : (k, b) ∈ (handleTimeout st rid).2) : k = rid := by
  unfold handleTimeout at h
  split at h
  · simp at h
  · split at h
    · simp at h
    · dsimp only at h
      split at h
      · simp at h
        exact h.1
      · simp at h

theorem cancelRequest_fire_keys (st : PMState) (rid : String)
    (k : String) (b : Bool) (h : (k, b) ∈ (cancelRequest st rid).2) : k = rid := by
  unfold cancelRequest at h
  dsimp only at h
  split at h
  · simp at h
    exact h.1
  · simp at h

theorem applyOp_fires_targets (s : PMState) (op : PMOp) (rid : String) (b : Bool)
    (h : (rid, b) ∈ (applyOp s op).2) : PMOp.targets rid op := by
  cases op with
  | request a t d dt tc id now => simp [applyOp] at h
  | response r dec => exact (handleResponse_fire_keys s r dec rid b h).symm
  | timeoutFire r => exact (handleTimeout_fire_keys s r rid b h).symm
  | cancel r => exact (cancelRequest_fire_keys s r rid b h).symm
  | cancelAll => exact trivial
  | reset level => simp [applyOp] at h

theorem utf8DecodeLoop_cons (s : Utf8DecState) (b : Nat) (bs : List Nat) :
    utf8DecodeLoop s (b :: bs) =
      (utf8Step s b).2 ++ utf8DecodeLoop (utf8Step s b).1 bs := by
  simp [utf8DecodeLoop]

theorem utf8Step_cont (s : Utf8DecState) (b : Nat) (hneed : ¬ s.needed = 0)
    (hlow : s.lowerB ≤ b) (hup : b ≤ s.upperB) (hn1 : ¬ s.needed = 1) :
    utf8Step s b =
      ({ acc := s.acc * 0x40 + (b - 0x80), needed := s.needed - 1,
         lowerB := 0x80, upperB := 0xBF }, ([] : List Char)) := by
  unfold utf8Step
  rw [if_neg hneed, if_pos ⟨hlow, hup⟩, if_neg hn1]

theorem utf8Step_last (s : Utf8DecState) (b : Nat) (hneed : s.needed = 1)
    (hlow : s.lowerB ≤ b) (hup : b ≤ s.upperB) :
    utf8Step s b = (initUtf8, [Char.ofNat (s.acc * 0x40 + (b - 0x80))]) := by
  unfold utf8Step
  rw [if_neg (by omega), if_pos ⟨hlow, hup⟩, if_pos hneed]

theorem utf8DecodeLoop_encodeChar (c : Char) (rest : List Nat) :
    utf8DecodeLoop initUtf8 (utf8EncodeChar c ++ rest) =
      c :: utf8DecodeLoop initUtf8 rest := by
  have hv : c.toNat < 0xD800 ∨ (0xDFFF < c.toNat ∧ c.toNat < 0x110000) := c.valid
  by_cases h1 : c.toNat < 0x80
  · -- one byte (ASCII)
    have henc : utf8EncodeChar c = [c.toNat] := by
      simp [utf8EncodeChar, h1]
    have hstep : utf8Step initUtf8 c.toNat = (initUtf8, [Char.ofNat c.toNat]) := by
      simp [utf8Step, utf8Ground, initUtf8, h1]
    rw [henc, List.singleton_append, utf8DecodeLoop_cons, hstep, Char.ofNat_toNat]
    rfl
  by_cases h2 : c.toNat < 0x800
  · -- two bytes
    have henc : utf8EncodeChar c = [0xC0 + c.toNat / 0x40, 0x80 + c.toNat % 0x40] := by
      simp [utf8EncodeChar, h1, h2]
    have hstep1 : utf8Step initUtf8 (0xC0 + c.toNat / 0x40) =
        ({ acc := 0xC0 + c.toNat / 0x40 - 0xC0, needed := 1, lowerB := 0x80, upperB := 0xBF },
         ([] : List Char)) := by
      have hn : ¬ (0xC0 + c.toNat / 0x40 < 0x80) := by omega
      have hy : 0xC2 ≤ 0xC0 + c.toNat / 0x40 ∧ 0xC0 + c.toNat / 0x40 ≤ 0xDF := by omega
      simp [utf8Step, utf8Ground, initUtf8, hn, hy]
    have hstep2 : utf8Step
        ({ acc := 0xC0 + c.toNat / 0x40 - 0xC0, needed := 1, lowerB := 0x80, upperB := 0xBF })
        (0x80 + c.toNat % 0x40) =
        (initUtf8,
         [Char.ofNat ((0xC0 + c.toNat / 0x40 - 0xC0) * 0x40 + (0x80 + c.toNat % 0x40 - 0x80))]) := by
      have hr1 : 0x80 ≤ 0x80 + c.toNat % 0x40 := by omega
      have hr2 : 0x80 + c.toNat % 0x40 ≤ 0xBF := by omega
      simp [utf8Step, hr1, hr2]
    have harith : (0xC0 + c.toNat / 0x40 - 0xC0) * 0x40 + (0x80 + c.toNat % 0x40 - 0x80)
        = c.toNat := by omega
    rw [henc, List.cons_append, List.singleton_append, utf8DecodeLoop_cons, hstep1]
    dsimp only
    rw [utf8DecodeLoop_cons, hstep2, harith, Char.ofNat_toNat]
    rfl
  by_cases h3 : c.toNat < 0x10000
  · -- three bytes
    have henc : utf8EncodeChar c =
        [0xE0 + c.toNat / 0x1000, 0x80 + c.toNat / 0x40 % 0x40, 0x80 + c.toNat % 0x40] := by
      simp [utf8EncodeChar, h1, h2, h3]
    have hstep1 : utf8Step initUtf8 (0xE0 + c.toNat / 0x1000) =
        ({ acc := 0xE0 + c.toNat / 0x1000 - 0xE0, needed := 2,
           lowerB := if 0xE0 + c.toNat / 0x1000 = 0xE0 then 0xA0 else 0x80,
           upperB := if 0xE0 + c.toNat / 0x1000 = 0xED then 0x9F else 0xBF },
         ([] : List Char)) := by
      have hn : ¬ (0xE0 + c.toNat / 0x1000 < 0x80) := by omega
      have hn2 : ¬ (0xC2 ≤ 0xE0 + c.toNat / 0x1000 ∧ 0xE0 + c.toNat / 0x1000 ≤ 0xDF) := by
        omega
      have hy : 0xE0 ≤ 0xE0 + c.toNat / 0x1000 ∧ 0xE0 + c.toNat / 0x1000 ≤ 0xEF := by omega
      simp [utf8Step, utf8Ground, initUtf8, hn, hn2, hy]
    have hlow : (if 0xE0 + c.toNat / 0x1000 = 0xE0 then 0xA0 else 0x80)
        ≤ 0x80 + c.toNat / 0x40 % 0x40 := by
      by_cases he : 0xE0 + c.toNat / 0x1000 = 0xE0
      · rw [if_pos he]; omega
      · rw [if_neg he]; omega
    have hup : 0x80 + c.toNat / 0x40 % 0x40
        ≤ (if 0xE0 + c.toNat / 0x1000 = 0xED then 0x9F else 0xBF) := by
      by_cases he : 0xE0 + c.toNat / 0x1000 = 0xED
      · rw [if_pos he]; omega
      · rw [if_neg he]; omega
    have hstep2 : utf8Step
        ({ acc := 0xE0 + c.toNat / 0x1000 - 0xE0, needed := 2,
           lowerB := if 0xE0 + c.toNat / 0x1000 = 0xE0 then 0xA0 else 0x80,
           upperB := if 0xE0 + c.toNat / 0x1000 = 0xED then 0x9F else 0xBF })
        (0x80 + c.toNat / 0x40 % 0x40) =
        ({ acc := (0xE0 + c.toNat / 0x1000 - 0xE0) * 0x40 + (0x80 + c.toNat / 0x40 % 0x40 - 0x80),
           needed := 1, lowerB := 0x80, upperB := 0xBF },
         ([] : List Char)) :=
      utf8Step_cont _ _ (by simp) hlow hup (by simp)
    have hstep3 : utf8Step
        ({ acc := (0xE0 + c.toNat / 0x1000 - 0xE0) * 0x40 + (0x80 + c.toNat / 0x40 % 0x40 - 0x80),
           needed := 1, lowerB := 0x80, upperB := 0xBF })
        (0x80 + c.toNat % 0x40) =
        (initUtf8,
         [Char.ofNat (((0xE0 + c.toNat / 0x1000 - 0xE0) * 0x40
            + (0x80 + c.toNat / 0x40 % 0x40 - 0x80)) * 0x40 + (0x80 + c.toNat % 0x40 - 0x80))]) := by
      have hr1 : (0x80 : Nat) ≤ 0x80 + c.toNat % 0x40 := by omega
      have hr2 : 0x80 + c.toNat % 0x40 ≤ (0xBF : Nat) := by omega
      exact utf8Step_last _ _ rfl hr1 hr2
    have harith : ((0xE0 + c.toNat / 0x1000 - 0xE0) * 0x40
        + (0x80 + c.toNat / 0x40 % 0x40 - 0x80)) * 0x40 + (0x80 + c.toNat % 0x40 - 0x80)
        = c.toNat := by omega
    rw [henc, List.cons_append, List.cons_append, List.singleton_append,
      utf8DecodeLoop_cons, hstep1]
    dsimp only
    rw [utf8DecodeLoop_cons, hstep2]
    dsimp only
    rw [utf8DecodeLoop_cons, hstep3, harith, Char.ofNat_toNat]
    rfl
  · -- four bytes
    have h4 : c.toNat < 0x110000 := by omega
    have henc : utf8EncodeChar c =
        [0xF0 + c.toNat / 0x40000, 0x80 + c.toNat / 0x1000 % 0x40,
         0x80 + c.toNat / 0x40 % 0x40, 0x80 + c.toNat % 0x40] := by
      simp [utf8EncodeChar, h1, h2, h3]
    have hstep1 : utf8Step initUtf8 (0xF0 + c.toNat / 0x40000) =
        ({ acc := 0xF0 + c.toNat / 0x40000 - 0xF0, needed := 3,
           lowerB := if 0xF0 + c.toNat / 0x40000 = 0xF0 then 0x90 else 0x80,
           upperB := if 0xF0 + c.toNat / 0x40000 = 0xF4 then 0x8F else 0xBF },
         ([] : List Char)) := by
      have hn : ¬ (0xF0 + c.toNat / 0x40000 < 0x80) := by omega
      have hn2 : ¬ (0xC2 ≤ 0xF0 + c.toNat / 0x40000 ∧ 0xF0 + c.toNat / 0x40000 ≤ 0xDF) := by
        omega
      have hn3 : ¬ (0xE0 ≤ 0xF0 + c.toNat / 0x40000 ∧ 0xF0 + c.toNat / 0x40000 ≤ 0xEF) := by
        omega
      have hy : 0xF0 ≤ 0xF0 + c.toNat / 0x40000 ∧ 0xF0 + c.toNat / 0x40000 ≤ 0xF4 := by omega
      simp [utf8Step, utf8Ground, initUtf8, hn, hn2, hn3, hy]
    have hlow : (if 0xF0 + c.toNat / 0x40000 = 0xF0 then 0x90 else 0x80)
        ≤ 0x80 + c.toNat / 0x1000 % 0x40 := by
      by_cases he : 0xF0 + c.toNat / 0x40000 = 0xF0
      · rw [if_pos he]; omega
      · rw [if_neg he]; omega
    have hup : 0x80 + c.toNat / 0x1000 % 0x40
        ≤ (if 0xF0 + c.toNat / 0x40000 = 0xF4 then 0x8F else 0xBF) := by
      by_cases he : 0xF0 + c.toNat / 0x40000 = 0xF4
      · rw [if_pos he]; omega
      · rw [if_neg he]; omega
    have hstep2 : utf8Step
        ({ acc := 0xF0 + c.toNat / 0x40000 - 0xF0, needed := 3,
           lowerB := if 0xF0 + c.toNat / 0x40000 = 0xF0 then 0x90 else 0x80,
           upperB := if 0xF0 + c.toNat / 0x40000 = 0xF4 then 0x8F else 0xBF })
        (0x80 + c.toNat / 0x1000 % 0x40) =
        ({ acc := (0xF0 + c.toNat / 0x40000 - 0xF0) * 0x40
              + (0x80 + c.toNat / 0x1000 % 0x40 - 0x80),
           needed := 2, lowerB := 0x80, upperB := 0xBF },
         ([] : List Char)) :=
      utf8Step_cont _ _ (by simp) hlow hup (by simp)
    have hstep3 : utf8Step
        ({ acc := (0xF0 + c.toNat / 0x40000 - 0xF0) * 0x40
              + (0x80 + c.toNat / 0x1000 % 0x40 - 0x80),
           needed := 2, lowerB := 0x80, upperB := 0xBF })
        (0x80 + c.toNat / 0x40 % 0x40) =
        ({ acc := ((0xF0 + c.toNat / 0x40000 - 0xF0) * 0x40
              + (0x80 + c.toNat / 0x1000 % 0x40 - 0x80)) * 0x40
              + (0x80 + c.toNat / 0x40 % 0x40 - 0x80),
           needed := 1, lowerB := 0x80, upperB := 0xBF },
         ([] : List Char)) := by
      have hr1 : (0x80 : Nat) ≤ 0x80 + c.toNat / 0x40 % 0x40 := by omega
      have hr2 : 0x80 + c.toNat / 0x40 % 0x40 ≤ (0xBF : Nat) := by omega
      exact utf8Step_cont _ _ (by simp) hr1 hr2 (by simp)
    have hstep4 : utf8Step
        ({ acc := ((0xF0 + c.toNat / 0x40000 - 0xF0) * 0x40
              + (0x80 + c.toNat / 0x1000 % 0x40 - 0x80)) * 0x40
              + (0x80 + c.toNat / 0x40 % 0x40 - 0x80),
           needed := 1, lowerB := 0x80, upperB := 0xBF })
        (0x80 + c.toNat % 0x40) =
        (initUtf8,
         [Char.ofNat ((((0xF0 + c.toNat / 0x40000 - 0xF0) * 0x40
              + (0x80 + c.toNat / 0x1000 % 0x40 - 0x80)) * 0x40
              + (0x80 + c.toNat / 0x40 % 0x40 - 0x80)) * 0x40 + (0x80 + c.toNat % 0x40 - 0x80))]) := by
      have hr1 : (0x80 : Nat) ≤ 0x80 + c.toNat % 0x40 := by omega
      have hr2 : 0x80 + c.toNat % 0x40 ≤ (0xBF : Nat) := by omega
      exact utf8Step_last _ _ rfl hr1 hr2
    have harith : (((0xF0 + c.toNat / 0x40000 - 0xF0) * 0x40
        + (0x80 + c.toNat / 0x1000 % 0x40 - 0x80)) * 0x40
        + (0x80 + c.toNat / 0x40 % 0x40 - 0x80)) * 0x40 + (0x80 + c.toNat % 0x40 - 0x80)
        = c.toNat := by omega
    rw [henc, List.cons_append, List.cons_append, List.cons_append, List.singleton_append,
      utf8DecodeLoop_cons, hstep1]
    dsimp only
    rw [utf8DecodeLoop_cons, hstep2]
    dsimp only
    rw [utf8DecodeLoop_cons, hstep3]
    dsimp only
    rw [utf8DecodeLoop_cons, hstep4, harith, Char.ofNat_toNat]
    rfl


theorem utf8DecodeBytes_encode_append (s : List Char) (rest : List Nat) :
    utf8DecodeBytes (utf8Encode s ++ rest) = s ++ utf8DecodeBytes rest := by
  induction s with
  | nil => simp [utf8Encode]
  | cons c s ih =>
    rw [show utf8Encode (c :: s) = utf8EncodeChar c ++ utf8Encode s from rfl,
      List.append_assoc]
    rw [show utf8DecodeBytes (utf8EncodeChar c ++ (utf8Encode s ++ rest))
        = utf8DecodeLoop initUtf8 (utf8EncodeChar c ++ (utf8Encode s ++ rest)) from rfl]
    rw [utf8DecodeLoop_encodeChar c (utf8Encode s ++ rest)]
    rw [show utf8DecodeLoop initUtf8 (utf8Encode s ++ rest)
        = utf8DecodeBytes (utf8Encode s ++ rest) from rfl, ih]
    rfl

theorem utf8DecodeBytes_encode (s : List Char) :
    utf8DecodeBytes (utf8Encode s) = s := by
  have h := utf8DecodeBytes_encode_append s []
  simpa [utf8DecodeBytes, utf8DecodeLoop, initUtf8] using h

theorem flatten_map_decode_of_aligned (cs : List (List Nat))
    (h : ∀ chunk ∈ cs, ∃ s : List Char, chunk = utf8Encode s) :
    (cs.map utf8DecodeBytes).flatten = utf8DecodeBytes cs.flatten := by
  induction cs with
  | nil => rfl
  | cons chunk cs ih =>
    obtain ⟨s, rfl⟩ := h chunk (List.mem_cons_self chunk cs)
    rw [List.map_cons, List.flatten_cons, List.flatten_cons,
      ih (fun x hx => h x (List.mem_cons_of_mem _ hx)),
      utf8DecodeBytes_encode_append, utf8DecodeBytes_encode]

/-! ## Claim theorems -/

/-- C10: `cancelCurrentRequest` kills (SIGTERM) and clears only the
in-flight process reference, leaving the stored session id unchanged;
`clearSession` nulls only the session id, leaving the process reference
untouched and sending no signal. -/
theorem cancel_clearSession_frame (st : ProviderState) :
    (cancelCurrentRequest st).1.currentSessionId = st.currentSessionId ∧
    (cancelCurrentRequest st).1.currentProcess = none ∧
    (cancelCurrentRequest st).2 =
      (match st.currentProcess with
       | some p => [KillSignal.sigterm p]
       | none => []) ∧
    (clearSession st).1.currentProcess = st.currentProcess ∧
    (clearSession st).1.currentSessionId = none ∧
    (clearSession st).2 = [] := by
  rcases st with ⟨proc, sid⟩
  cases proc <;> simp [cancelCurrentRequest, clearSession]

/-- C5 counterexample: the user message `"/compact "` (trailing space)
begins with `/`, yet `buildPromptAsync` dispatches the trimmed
`"/compact"` — not exactly the message — even with non-empty context and
history present. -/
theorem buildPromptAsync_slash_trims :
    buildPromptAsync "/compact " [ctxSample] (some [msgSample]) "edit-automatically" none ""
      = "/compact" ∧
    buildPromptAsync "/compact " [ctxSample] (some [msgSample]) "edit-automatically" none ""
      ≠ "/compact " := by
  constructor
  · decide
  · decide

/-- C5 (amended): for every user message whose trimmed content begins with
`/`, both `buildPromptAsync` and `buildPrompt` produce exactly the trimmed
message — no agent instructions, persona, file context, conversation
history or mode directive are injected, whatever those inputs are. -/
theorem buildPrompt_slash_passthrough (content : String)
    (h : jsStartsWith (jsTrim content) "/" = true)
    (context : List ContextItem) (conv : Option (List Message)) (mode : String)
    (personaPrompt : Option String) (agentInstructions : String) :
    buildPromptAsync content context conv mode personaPrompt agentInstructions
      = jsTrim content ∧
    buildPrompt content context conv mode personaPrompt agentInstructions
      = jsTrim content := by
  constructor <;> simp [buildPrompt, buildPromptAsync, h]

/-- Witness for C5: the prompt `"/compact"` sent with non-empty context,
non-empty history, a persona and agent instructions is dispatched as
exactly `"/compact"`. -/
theorem buildPrompt_slash_passthrough_witness :
    buildPromptAsync "/compact" [ctxSample] (some [msgSample]) "edit-automatically"
      (some "persona text") "agent instructions" = "/compact" :=
  ((buildPrompt_slash_passthrough "/compact" (by decide) [ctxSample] (some [msgSample])
    "edit-automatically" (some "persona text") "agent instructions").1).trans (by decide)

/-- The string-level loop (everything from `buffer += chunkStr` onwards) is
invariant under re-chunking of the decoded text: any two chunk-string lists
with the same concatenation produce the same chunk sequence, for any (even
stateful) line parser. -/
theorem processStreamChunks_eq_of_flatten_eq {σ J : Type}
    (parse : σ → List Char → σ × Option (StreamChunk J)) (st : σ)
    (chunks1 chunks2 : List (List Char)) (h : chunks1.flatten = chunks2.flatten) :
    processStreamChunks parse st chunks1 = processStreamChunks parse st chunks2 := by
  unfold processStreamChunks
  rw [feedChunks_eq_flatten parse (st, []) (by simp) chunks1,
    feedChunks_eq_flatten parse (st, []) (by simp) chunks2, h]

/-- C3 counterexample: the well-formed newline-delimited JSON byte stream
`{"type":"error","message":"é"}\n` fed to the stream loop byte-by-byte
versus whole-buffer produces different chunk sequences.  Each stdout
`Buffer` is decoded independently by `chunk.toString()`, so the two bytes
of `é` split across chunk boundaries each decode to U+FFFD: whole-buffer
delivery yields the error chunk `"é"`, byte-by-byte delivery yields the
error chunk `"��"`. -/
theorem byteProcessStream_boundary_dependent :
    byteProcessStreamChunks cexLineParser emptyParseState
        [utf8Encode (cexErrorLine.data ++ ['\n'])] =
      [StreamChunk.error "é"] ∧
    byteProcessStreamChunks cexLineParser emptyParseState
        ((utf8Encode (cexErrorLine.data ++ ['\n'])).map (fun b => [b])) =
      [StreamChunk.error "��"] ∧
    byteProcessStreamChunks cexLineParser emptyParseState
        ((utf8Encode (cexErrorLine.data ++ ['\n'])).map (fun b => [b])) ≠
      byteProcessStreamChunks cexLineParser emptyParseState
        [utf8Encode (cexErrorLine.data ++ ['\n'])] := by
  refine ⟨by decide, by decide, by decide⟩

/-- C3 (amended): feeding the same well-formed newline-delimited byte
stream to the stream-processing loop in chunkings whose every chunk
boundary falls on a UTF-8 character boundary (each chunk is the UTF-8
encoding of some character sequence) produces the identical chunk
sequence, for any (even stateful) line parser: a partial trailing line is
buffered across reads, only complete lines are parsed, and at
end-of-stream any non-blank remainder is parsed.  A chunk boundary inside
a multi-byte character is outside this guarantee: `chunk.toString()`
decodes each `Buffer` in isolation and replaces the split character with
U+FFFD, which can change the resulting sequence. -/
theorem byteProcessStream_boundary_independence {σ J : Type}
    (parse : σ → List Char → σ × Option (StreamChunk J)) (st : σ)
    (chunks1 chunks2 : List (List Nat))
    (h1 : ∀ chunk ∈ chunks1, ∃ s : List Char, chunk = utf8Encode s)
    (h2 : ∀ chunk ∈ chunks2, ∃ s : List Char, chunk = utf8Encode s)
    (h : chunks1.flatten = chunks2.flatten) :
    byteProcessStreamChunks parse st chunks1 = byteProcessStreamChunks parse st chunks2 := by
  unfold byteProcessStreamChunks
  apply processStreamChunks_eq_of_flatten_eq
  rw [flatten_map_decode_of_aligned chunks1 h1, flatten_map_decode_of_aligned chunks2 h2, h]

/-- Witness for C3 (amended): two character-aligned chunkings of the same
byte stream (one splitting between `ab` and `é\n`, one whole-buffer)
produce the same chunk sequence. -/
theorem byteProcessStream_boundary_independence_witness :
    byteProcessStreamChunks cexLineParser emptyParseState
        [utf8Encode "ab".data, utf8Encode "é\n".data] =
      byteProcessStreamChunks cexLineParser emptyParseState [utf8Encode "abé\n".data] :=
  byteProcessStream_boundary_independence cexLineParser emptyParseState
    [utf8Encode "ab".data, utf8Encode "é\n".data] [utf8Encode "abé\n".data]
    (by intro chunk hc
        simp only [List.mem_cons, List.not_mem_nil, or_false] at hc
        rcases hc with rfl | rfl
        · exact ⟨"ab".data, rfl⟩
        · exact ⟨"é\n".data, rfl⟩)
    (by intro chunk hc
        simp only [List.mem_cons, List.not_mem_nil, or_false] at hc
        rcases hc with rfl
        exact ⟨"abé\n".data, rfl⟩)
    (by decide)

/-- C1 counterexample: an exception thrown while building the prompt (a
stage `sendMessage` runs before entering its `try` block) escapes the async
generator as a raw exception instead of an `error` chunk, so that run ends
with neither a `done` nor an `error` chunk. -/
theorem sendMessage_prompt_exception_escapes :
    sendMessage promptThrowInputs = Except.error "boom" := rfl

/-- C1 (amended): once the stages `sendMessage` runs before its `try` block
(`getCliPath`, `buildCliArgs`, `buildPromptAsync`) succeed, no exception
escapes to the consumer: an exception thrown inside the `try` (spawning or
stream processing) is caught and converted to exactly one trailing `error`
chunk, a successful run appends one `done` chunk carrying the stored
usage, and every such run's chunk sequence is non-empty and ends with a
`done` or `error` chunk. -/
theorem sendMessage_try_block_catches {J : Type} (inp : SendInputs J)
    (hc : ∃ p, inp.cliPathResult = Except.ok p)
    (ha : ∃ a, inp.argsResult = Except.ok a)
    (hp : ∃ s, inp.promptResult = Except.ok s) :
    (∀ e, inp.spawnResult = Except.error e →
      sendMessage inp = Except.ok [StreamChunk.error e]) ∧
    (∀ e, inp.spawnResult = Except.ok () → inp.streamOutcome.thrown = some e →
      sendMessage inp = Except.ok (inp.streamOutcome.chunks ++ [StreamChunk.error e])) ∧
    (inp.spawnResult = Except.ok () → inp.streamOutcome.thrown = none →
      sendMessage inp = Except.ok (inp.streamOutcome.chunks ++ [StreamChunk.done inp.storedUsage])) ∧
    (∃ chunks, sendMessage inp = Except.ok chunks ∧ chunks ≠ [] ∧
      ((∃ u, chunks.getLast? = some (StreamChunk.done u)) ∨
       (∃ e, chunks.getLast? = some (StreamChunk.error e)))) := by
  obtain ⟨p, hc⟩ := hc
  obtain ⟨a, ha⟩ := ha
  obtain ⟨s, hp⟩ := hp
  refine ⟨?_, ?_, ?_, ?_⟩
  · intro e hs
    simp [sendMessage, hc, ha, hp, hs, handleError]
  · intro e hs ht
    simp [sendMessage, hc, ha, hp, hs, ht, handleError]
  · intro hs ht
    simp [sendMessage, hc, ha, hp, hs, ht]
  · rcases hs : inp.spawnResult with e | u
    · exact ⟨[StreamChunk.error e], by simp [sendMessage, hc, ha, hp, hs, handleError],
        by simp, Or.inr ⟨e, by simp⟩⟩
    · rcases ht : inp.streamOutcome.thrown with _ | e
      · exact ⟨inp.streamOutcome.chunks ++ [StreamChunk.done inp.storedUsage],
          by simp [sendMessage, hc, ha, hp, hs, ht], by simp,
          Or.inl ⟨inp.storedUsage, by simp⟩⟩
      · exact ⟨inp.streamOutcome.chunks ++ [StreamChunk.error e],
          by simp [sendMessage, hc, ha, hp, hs, ht, handleError], by simp,
          Or.inr ⟨e, by simp⟩⟩

/-- Witness for C1 (amended): a fully successful run yields its stream
chunks followed by exactly one `done` chunk. -/
theorem sendMessage_try_block_catches_witness :
    sendMessage sendOkInputs =
      Except.ok [StreamChunk.text "x", StreamChunk.done (J := Unit) none] := by
  have h := (sendMessage_try_block_catches sendOkInputs ⟨"claude", rfl⟩ ⟨["--print"], rfl⟩
    ⟨"hi", rfl⟩).2.2.1 rfl rfl
  simpa [sendOkInputs] using h

/-- C2 (code bug): for a live process that ignores SIGTERM and never exits,
`waitForProcess` does reject within the hard timeout and sends SIGTERM at
`PROCESS_TIMEOUT_MS`, but never sends the SIGKILL the grace-period callback
is supposed to deliver: `kill('SIGTERM')` sets Node's `ChildProcess.killed`
flag (which records only that `kill()` was called), so the guard
`!this._currentProcess.killed` is false at
`PROCESS_TIMEOUT_MS + PROCESS_KILL_GRACE_PERIOD_MS` and the process
survives the grace period unkilled. -/
theorem waitForProcess_sigkill_never_sent :
    (waitForProcess (some stubbornProcess)).completionTime = PROCESS_TIMEOUT_MS ∧
    (waitForProcess (some stubbornProcess)).result = Except.error "Process timeout" ∧
    (waitForProcess (some stubbornProcess)).signals = [(PROCESS_TIMEOUT_MS, Sig.sigterm)] ∧
    aliveAt stubbornProcess (waitForProcess (some stubbornProcess)).signals
      (PROCESS_TIMEOUT_MS + PROCESS_KILL_GRACE_PERIOD_MS) = true := by
  refine ⟨rfl, rfl, rfl, ?_⟩
  decide

/-- C4: starting from any parser state, a `content_block_start(tool_use)`
at index `idx` followed by any number of `input_json_delta` fragments for
`idx` and one `content_block_stop(idx)` emits the start chunk and then, on
the stop signal, exactly one `tool_use` chunk with status `running` whose
input is the accumulated fragment text parsed as one JSON object (parse
failure or no text → empty object); the deltas themselves emit nothing,
the accumulator entry for `idx` is discarded by the stop (so a new call
reusing `idx` never sees it), all other indices' accumulators and the
session id are untouched. -/
theorem toolcall_accumulation {J : Type} (jparse : String → Option J) (emptyJ : J)
    (st : ParseState) (idx : Int) (id name : String) (frags : List String) :
    (runParse jparse emptyJ st
        (ClaudeEvent.blockStartToolUse idx id name ::
          (frags.map (ClaudeEvent.inputJsonDelta idx) ++ [ClaudeEvent.blockStop idx]))).2 =
      [StreamChunk.toolUse
         { id := id, name := name, input := emptyJ, status := ToolStatus.running },
       StreamChunk.toolUse
         { id := id, name := name,
           input := resolveToolInput jparse emptyJ (frags.foldl (fun a b => a ++ b) ""),
           status := ToolStatus.running }] ∧
    mapGet (runParse jparse emptyJ st
        (ClaudeEvent.blockStartToolUse idx id name ::
          (frags.map (ClaudeEvent.inputJsonDelta idx) ++ [ClaudeEvent.blockStop idx]))).1.activeToolCalls idx
      = none ∧
    (∀ j, j ≠ idx →
      mapGet (runParse jparse emptyJ st
          (ClaudeEvent.blockStartToolUse idx id name ::
            (frags.map (ClaudeEvent.inputJsonDelta idx) ++ [ClaudeEvent.blockStop idx]))).1.activeToolCalls j
        = mapGet st.activeToolCalls j) ∧
    (runParse jparse emptyJ st
        (ClaudeEvent.blockStartToolUse idx id name ::
          (frags.map (ClaudeEvent.inputJsonDelta idx) ++ [ClaudeEvent.blockStop idx]))).1.currentSessionId
      = st.currentSessionId := by
  have hstart : parseStreamLine jparse emptyJ st (ClaudeEvent.blockStartToolUse idx id name) =
      ({ st with activeToolCalls := mapSet st.activeToolCalls idx (ToolAcc.mk id name "") },
       some (StreamChunk.toolUse { id := id, name := name, input := emptyJ, status := ToolStatus.running })) := by
    simp [parseStreamLine]
  obtain ⟨ih1, ih2, ih3, ih4⟩ := runParse_inputJsonDeltas jparse emptyJ idx frags
    { st with activeToolCalls := mapSet st.activeToolCalls idx (ToolAcc.mk id name "") }
    (ToolAcc.mk id name "") (mapGet_mapSet_self _ _ _)
  have hstop : runParse jparse emptyJ
      (runParse jparse emptyJ
        { st with activeToolCalls := mapSet st.activeToolCalls idx (ToolAcc.mk id name "") }
        (frags.map (ClaudeEvent.inputJsonDelta idx))).1 [ClaudeEvent.blockStop idx] =
      ({ (runParse jparse emptyJ { st with activeToolCalls := mapSet st.activeToolCalls idx (ToolAcc.mk id name "") } (frags.map (ClaudeEvent.inputJsonDelta idx))).1 with
          activeToolCalls := mapDel (runParse jparse emptyJ { st with activeToolCalls := mapSet st.activeToolCalls idx (ToolAcc.mk id name "") } (frags.map (ClaudeEvent.inputJsonDelta idx))).1.activeToolCalls idx },
       [StreamChunk.toolUse
         { id := id, name := name,
           input := resolveToolInput jparse emptyJ (frags.foldl (fun a b => a ++ b) ""),
           status := ToolStatus.running }]) := by
    rw [runParse_cons]
    simp [runParse, parseStreamLine, ih2]
  refine ⟨?_, ?_, fun j hj => ?_, ?_⟩
  · rw [runParse_cons, hstart, runParse_append, ih1, hstop]
    simp
  · rw [runParse_cons, hstart, runParse_append, hstop]
    exact mapGet_mapDel_self _ _
  · rw [runParse_cons, hstart, runParse_append, hstop]
    have h1 := mapGet_mapDel_ne
      (runParse jparse emptyJ { st with activeToolCalls := mapSet st.activeToolCalls idx (ToolAcc.mk id name "") } (frags.map (ClaudeEvent.inputJsonDelta idx))).1.activeToolCalls
      idx j hj
    rw [h1, ih3 j hj]
    exact mapGet_mapSet_ne _ _ _ _ hj
  · rw [runParse_cons, hstart, runParse_append, hstop]
    exact ih4

/-- Witness for C4: a tool call at index 0 with fragments `"a"`, `"b"`
resolves its input through the sample JSON parser to `7`, and a stale
accumulator at index 1 survives untouched while index 0 is discarded. -/
theorem toolcall_accumulation_witness :
    (runParse sampleJparse 0 sampleParseState
        (ClaudeEvent.blockStartToolUse 0 "t1" "Bash" ::
          ((["a", "b"].map (ClaudeEvent.inputJsonDelta 0)) ++ [ClaudeEvent.blockStop 0]))).2 =
      [StreamChunk.toolUse { id := "t1", name := "Bash", input := 0, status := ToolStatus.running },
       StreamChunk.toolUse { id := "t1", name := "Bash", input := 7, status := ToolStatus.running }] ∧
    mapGet (runParse sampleJparse 0 sampleParseState
        (ClaudeEvent.blockStartToolUse 0 "t1" "Bash" ::
          ((["a", "b"].map (ClaudeEvent.inputJsonDelta 0)) ++ [ClaudeEvent.blockStop 0]))).1.activeToolCalls 0
      = none ∧
    mapGet (runParse sampleJparse 0 sampleParseState
        (ClaudeEvent.blockStartToolUse 0 "t1" "Bash" ::
          ((["a", "b"].map (ClaudeEvent.inputJsonDelta 0)) ++ [ClaudeEvent.blockStop 0]))).1.activeToolCalls 1
      = some { id := "old", name := "OldTool", inputJson := "xx" } := by
  obtain ⟨h1, h2, h3, _⟩ :=
    toolcall_accumulation sampleJparse 0 sampleParseState 0 "t1" "Bash" ["a", "b"]
  refine ⟨h1.trans ?_, h2, (h3 1 (by decide)).trans ?_⟩
  · decide
  · decide

/-- C6: a `session_active` chunk is produced only by a `system` record with
subtype `init` carrying a non-empty session id, and only when no session id
is yet known, in which case that id is stored; an already-known session id
is never overwritten by any later record; consequently a run over any event
sequence emits no `session_active` chunk once an id is known, and at most
one overall. -/
theorem session_id_extraction {J : Type} (jparse : String → Option J) (emptyJ : J) :
    (∀ st ev sid,
      (parseStreamLine jparse emptyJ st ev).2 = some (StreamChunk.sessionActive sid) →
      ev = ClaudeEvent.systemEvent "init" sid ∧ st.currentSessionId = none ∧
      (parseStreamLine jparse emptyJ st ev).1.currentSessionId = some sid) ∧
    (∀ st ev s, st.currentSessionId = some s →
      (parseStreamLine jparse emptyJ st ev).1.currentSessionId = some s) ∧
    (∀ st evs s, st.currentSessionId = some s →
      countSessionActive (runParse jparse emptyJ st evs).2 = 0) ∧
    (∀ st evs, countSessionActive (runParse jparse emptyJ st evs).2 ≤ 1) :=
  ⟨fun st ev sid h => parseStreamLine_sessionActive_inv jparse emptyJ st ev sid h,
   fun st ev s hs => parseStreamLine_preserves_sessionId jparse emptyJ st ev s hs,
   fun st evs s hs => runParse_no_sessionActive_of_some jparse emptyJ evs st s hs,
   fun st evs => runParse_sessionActive_at_most_once jparse emptyJ evs st⟩

/-- Witness for C6: a second `init` record does not overwrite a known id,
and a fresh process extracts at most one id from two `init` records. -/
theorem session_id_extraction_witness :
    (parseStreamLine sampleJparse 0
        { activeToolCalls := [], currentSessionId := some "s0" }
        (ClaudeEvent.systemEvent "init" "s1")).1.currentSessionId = some "s0" ∧
    countSessionActive (runParse sampleJparse 0
        { activeToolCalls := [], currentSessionId := none }
        [ClaudeEvent.systemEvent "init" "s1", ClaudeEvent.systemEvent "init" "s2"]).2 ≤ 1 := by
  obtain ⟨-, h2, -, h4⟩ := session_id_extraction sampleJparse 0
  exact ⟨h2 _ _ "s0" rfl, h4 _ _⟩

/-- C8: after `handleResponse` resolves a pending request with decision
`always-allow`, the session access level is `full-access`, and after any
further sequence of manager operations not containing an explicit
`resetSessionAccessLevel`, every `requestPermission` call — whatever the
action type — returns `true` immediately with the state unchanged (so no
pending entry is created). -/
theorem always_allow_full_access (st : PMState) (rid : String) (req : PermissionRequest)
    (h : mapGet st.pendingRequests rid = some req) :
    (handleResponse st rid PermissionDecision.alwaysAllow).1.sessionAccessLevel
      = AccessLevel.fullAccess ∧
    (∀ ops : List PMOp, (∀ op ∈ ops, op.isReset = false) →
      (applyOps (handleResponse st rid PermissionDecision.alwaysAllow).1 ops).sessionAccessLevel
        = AccessLevel.fullAccess ∧
      (∀ actionType title description details toolCallId newId now,
        requestPermission
            (applyOps (handleResponse st rid PermissionDecision.alwaysAllow).1 ops)
            actionType title description details toolCallId newId now =
          (applyOps (handleResponse st rid PermissionDecision.alwaysAllow).1 ops,
           RequestOutcome.immediate true))) := by
  have hup : (handleResponse st rid PermissionDecision.alwaysAllow).1.sessionAccessLevel
      = AccessLevel.fullAccess := by
    unfold handleResponse
    rw [h]
    dsimp only
    split <;> rfl
  refine ⟨hup, fun ops hops => ?_⟩
  have hlvl := applyOps_preserves_fullAccess _ ops hops hup
  exact ⟨hlvl, fun a t d dt tc id now => requestPermission_fullAccess _ hlvl a t d dt tc id now⟩

/-- Witness for C8: in `pmSample`, an `always-allow` response to `r1`
upgrades the session, the upgrade survives a later timeout firing for `r2`,
and a subsequent high-risk `file-delete` request resolves true immediately
with no state change. -/
theorem always_allow_full_access_witness :
    (handleResponse pmSample "r1" PermissionDecision.alwaysAllow).1.sessionAccessLevel
      = AccessLevel.fullAccess ∧
    (applyOps (handleResponse pmSample "r1" PermissionDecision.alwaysAllow).1
        [PMOp.timeoutFire "r2"]).sessionAccessLevel = AccessLevel.fullAccess ∧
    requestPermission
        (applyOps (handleResponse pmSample "r1" PermissionDecision.alwaysAllow).1
          [PMOp.timeoutFire "r2"])
        PermissionActionType.fileDelete "Delete file" "delete a.ts" "a.ts" none "r9" 999 =
      (applyOps (handleResponse pmSample "r1" PermissionDecision.alwaysAllow).1
        [PMOp.timeoutFire "r2"],
       RequestOutcome.immediate true) := by
  obtain ⟨h1, h2⟩ := always_allow_full_access pmSample "r1" sampleReq1 (by decide)
  obtain ⟨h3, h4⟩ := h2 [PMOp.timeoutFire "r2"] (by decide)
  exact ⟨h1, h3, h4 _ _ _ _ _ _ _⟩

/-- C9: an `always-allow` response to request `rid` resolves only `rid`:
any other request `rid'` that was pending at the upgrade stays in the
pending set with its resolver intact and is not fired by the upgrade; and
in general an operation fires a resolution for `rid'` only if it is
`rid'`'s own explicit response, `rid'`'s own timeout, or an explicit
cancellation. -/
theorem always_allow_not_retroactive (st : PMState) (rid rid' : String)
    (req' : PermissionRequest) (hne : rid' ≠ rid)
    (hp : mapGet st.pendingRequests rid' = some req')
    (hr : rid' ∈ st.resolvers) :
    mapGet (handleResponse st rid PermissionDecision.alwaysAllow).1.pendingRequests rid'
      = some req' ∧
    rid' ∈ (handleResponse st rid PermissionDecision.alwaysAllow).1.resolvers ∧
    (∀ b, (rid', b) ∉ (handleResponse st rid PermissionDecision.alwaysAllow).2) ∧
    (∀ s op b, (rid', b) ∈ (applyOp s op).2 → PMOp.targets rid' op) := by
  refine ⟨?_, ?_, ?_, fun s op b hb => applyOp_fires_targets s op rid' b hb⟩
  · unfold handleResponse
    split
    · exact hp
    · dsimp only
      split <;> simpa [mapGet_mapDel_ne st.pendingRequests rid rid' hne] using hp
  · unfold handleResponse
    split
    · exact hr
    · dsimp only
      split
      · simp [List.mem_filter, hr, hne]
      · exact hr
  · intro b
    unfold handleResponse
    split
    · simp
    · dsimp only
      split
      · simp [hne]
      · simp

/-- Witness for C9: the `always-allow` response to `r1` in `pmSample`
leaves `r2` pending with its resolver, and fires no resolution for `r2`. -/
theorem always_allow_not_retroactive_witness :
    mapGet (handleResponse pmSample "r1" PermissionDecision.alwaysAllow).1.pendingRequests "r2"
      = some sampleReq2 ∧
    "r2" ∈ (handleResponse pmSample "r1" PermissionDecision.alwaysAllow).1.resolvers ∧
    ("r2", true) ∉ (handleResponse pmSample "r1" PermissionDecision.alwaysAllow).2 ∧
    ("r2", false) ∉ (handleResponse pmSample "r1" PermissionDecision.alwaysAllow).2 := by
  obtain ⟨h1, h2, h3, -⟩ := always_allow_not_retroactive pmSample "r1" "r2" sampleReq2
    (by decide) (by decide) (by decide)
  exact ⟨h1, h2, h3 true, h3 false⟩

end Mystlin
